import Mathlib

/-!
Verification development for the seekr-app indexing-and-search engine.

The TypeScript sources are shallowly embedded into Lean:

* JavaScript strings are modelled as `String` / `List Char` with hand-written
  helpers mirroring the exact JS semantics used by the code
  (`trim`, `toLowerCase`, regex-style scanning, SQL `LIKE`, `split`).
* JavaScript numbers are modelled as `ℚ` where fractional values occur
  (size bounds) and as `ℤ` for millisecond timestamps (`Date` values are
  represented by their `getTime()` value).  Double-precision rounding is not
  modelled.
* Promises/async are irrelevant to the verified properties; fallible external
  calls (the sqlite layer, the Fuse index) are passed in as `Except`-valued
  parameters so that the `try/catch` boundaries can be stated.
* `Date.now()` and the calendar arithmetic of `new Date(y,m,d)` /
  `setDate` / `setMonth` / `setFullYear` are environment dependent (clock and
  local timezone), so they are supplied through a `JsDateEnv` record.
* `uuidv4()` is an opaque fresh-identifier generator and is supplied as a
  `String → String` parameter (applied to the full path).
* `Array.prototype.sort` with a consistent comparator is, per ECMAScript,
  a stable sort; the stable order for a total preorder is unique, so it is
  modelled by a stable insertion sort `jsSortBy`.
-/

/-- JS `\s` whitespace class (the characters recognised by `trim` and the
`\s` regex class). -/
def isSpaceJS (c : Char) : Bool :=
  c = ' ' || c = '\t' || c = '\n' || c = '\r' ||
  c = '\x0b' || c = '\x0c' ||
  c = '\u00A0' || c = '\u1680' ||
  ('\u2000' ≤ c && c ≤ '\u200A') ||
  c = '\u2028' || c = '\u2029' || c = '\u202F' || c = '\u205F' ||
  c = '\u3000' || c = '\uFEFF'

/-- Character-level model of `String.prototype.trim`. -/
def jsTrimC (l : List Char) : List Char :=
  ((l.dropWhile isSpaceJS).reverse.dropWhile isSpaceJS).reverse

/-- String wrapper for `jsTrimC`. -/
def jsTrim (s : String) : String := String.mk (jsTrimC s.toList)

/-- Character-level model of `String.prototype.toLowerCase` (ASCII; the
sources only compare ASCII data). -/
def jsLowerC (l : List Char) : List Char := l.map Char.toLower

/-- String wrapper for `jsLowerC`. -/
def jsToLower (s : String) : String := String.mk (jsLowerC s.toList)

/-- Lexicographic order on character lists by code point, decidable and
kernel-evaluable; models both JS string comparison and SQLite text
comparison (memcmp of UTF-8 agrees with code-point order). -/
def charListLe : List Char → List Char → Bool
  | [], _ => true
  | _ :: _, [] => false
  | a :: as, b :: bs =>
    if a < b then true
    else if b < a then false
    else charListLe as bs

/-- Does `tok` occur at the head of `l`? -/
def leadEq : List Char → List Char → Bool
  | [], _ => true
  | _ :: _, [] => false
  | a :: as, b :: bs => a == b && leadEq as bs

/-- Does `tok` occur as a contiguous substring of `hay`?  Models JS
`String.prototype.includes`. -/
def containsTok (hay tok : List Char) : Bool :=
  match hay with
  | [] => leadEq tok []
  | _ :: rest => leadEq tok hay || containsTok rest tok

/-- String wrapper: `hay.includes(tok)`. -/
def jsIncludes (hay tok : String) : Bool := containsTok hay.toList tok.toList

/-- JS `String.prototype.startsWith`. -/
def jsStartsWith (s t : String) : Bool := leadEq t.toList s.toList

/-- Split a character list at every occurrence of the separator character,
keeping empty fields; models JS `String.prototype.split(sep)` for a
one-character separator (used for path segmentation). -/
def splitCh (sep : Char) : List Char → List (List Char)
  | [] => [[]]
  | c :: rest =>
    let r := splitCh sep rest
    if c = sep then [] :: r
    else match r with
      | [] => [[c]]
      | h :: t => (c :: h) :: t

/-- Split a string on a one-character separator, as JS `split`. -/
def jsSplitChar (sep : Char) (s : String) : List String :=
  (splitCh sep s.toList).map String.mk

/-- Model of JS `s.split(/\s+/)` as a character state machine: `acc` is the
current field (reversed), `inRun` records whether a whitespace run is being
consumed.  A leading or trailing whitespace run produces an empty field,
interior runs act as single separators. -/
def splitWsGo : List Char → List Char → Bool → List (List Char)
  | [], acc, inRun => if inRun then [[]] else [acc.reverse]
  | c :: rest, acc, inRun =>
    if inRun then
      if isSpaceJS c then splitWsGo rest acc true
      else splitWsGo rest [c] false
    else
      if isSpaceJS c then acc.reverse :: splitWsGo rest [] true
      else splitWsGo rest (c :: acc) false

/-- JS `s.split(/\s+/)`. -/
def jsSplitWs (s : String) : List String :=
  (splitWsGo s.toList [] false).map String.mk

/-- SQL `LIKE` matching (case-insensitive, as SQLite's default for ASCII):
`%` matches any run (implemented by trying every suffix), `_` any single
character. -/
def likeMatch : List Char → List Char → Bool
  | [], s => s.isEmpty
  | '%' :: ps, s => s.tails.any fun t => likeMatch ps t
  | '_' :: ps, s =>
    match s with
    | [] => false
    | _ :: ss => likeMatch ps ss
  | p :: ps, s =>
    match s with
    | [] => false
    | c :: ss => (p.toLower == c.toLower) && likeMatch ps ss

/-- Digit-string to number, as `parseInt` on an all-digit string. -/
def digitsToNat (ds : List Char) : ℕ :=
  ds.foldl (fun n c => n * 10 + (c.toNat - '0'.toNat)) 0

/-- The ten decimal digit characters. -/
def digitChars : List Char := ['0','1','2','3','4','5','6','7','8','9']

/-- Index of the last `'.'` of the list at or after position `i`, if any. -/
def lastDotFrom : List Char → ℕ → Option ℕ
  | [], _ => none
  | c :: rest, i =>
    match lastDotFrom rest (i + 1) with
    | some j => some j
    | none => if c = '.' then some i else none

/-- Node `path.extname` restricted to a base name: the suffix from the last
dot, empty when there is no dot or the only dot is the leading character. -/
def extnameOf (name : String) : String :=
  let cs := name.toList
  match lastDotFrom cs 0 with
  | none => ""
  | some 0 => ""
  | some i => String.mk ('.' :: cs.drop (i + 1))

/-- Node `path.basename` for `'/'`-separated paths. -/
def basenameOf (p : String) : String :=
  match (splitCh '/' p.toList).getLast? with
  | some l => String.mk l
  | none => p

/-- Node `path.dirname` for `'/'`-separated paths: everything before the
last separator (`"."` when there is none). -/
def dirnameOf (p : String) : String :=
  let segs := splitCh '/' p.toList
  match segs with
  | [] => p
  | [_] => "."
  | _ => String.mk (List.intercalate ['/'] segs.dropLast)

/-- Stable insertion of `x` into an already sorted list: `x` is placed
before the first element `y` with `le x y`, so elements comparing equal
keep their original relative order. -/
def jsInsertBy (le : α → α → Bool) (x : α) : List α → List α
  | [] => [x]
  | y :: ys => if le x y then x :: y :: ys else y :: jsInsertBy le x ys

/-- Stable sort (insertion sort).  ECMAScript mandates that
`Array.prototype.sort` with a consistent comparator is stable, and the
stable order for a total preorder is unique, so this models the JS sorts in
the sources exactly. -/
def jsSortBy (le : α → α → Bool) : List α → List α
  | [] => []
  | x :: xs => jsInsertBy le x (jsSortBy le xs)

/-- ASCII upper-casing, as JS `toUpperCase` on the ASCII data compared by
the sources. -/
def jsToUpper (s : String) : String := String.mk (s.toList.map Char.toUpper)

/-- JS `s.substring(n)`: drop the first `n` characters. -/
def strDrop (s : String) (n : ℕ) : String := String.mk (s.toList.drop n)

/-- Join a list of strings with a single-space separator, as JS
`Array.prototype.join(' ')`. -/
def joinSpace (l : List String) : String :=
  String.mk (List.intercalate [' '] (l.map String.toList))

/-! ## Data model

`FileItem` from `src/types/index.ts`.  `Date` fields are represented by
their millisecond value (`getTime()`); `type` holds the string value of the
`FileType` enum. -/

structure FileItem where
  id : String
  name : String
  path : String
  fullPath : String
  extension : String
  size : ℚ
  dateModified : ℤ
  dateCreated : ℤ
  isDirectory : Bool
  type : String
deriving DecidableEq

namespace FileType

/-- `FileType.DOCUMENT`. -/
def DOCUMENT : String := "document"

/-- `FileType.IMAGE`. -/
def IMAGE : String := "image"

/-- `FileType.VIDEO`. -/
def VIDEO : String := "video"

/-- `FileType.AUDIO`. -/
def AUDIO : String := "audio"

/-- `FileType.ARCHIVE`. -/
def ARCHIVE : String := "archive"

/-- `FileType.CODE`. -/
def CODE : String := "code"

/-- `FileType.DIRECTORY`. -/
def DIRECTORY : String := "directory"

/-- `FileType.OTHER`. -/
def OTHER : String := "other"

end FileType

/-- One row of the `files` table (schema of `createTables`): `isDirectory`
is stored as the integer 0/1, dates as millisecond integers. -/
structure Row where
  id : String
  name : String
  path : String
  fullPath : String
  extension : String
  size : ℚ
  dateModified : ℤ
  dateCreated : ℤ
  isDirectory : ℤ
  type : String
deriving DecidableEq

/-- Result of `parseSearchQuery` (both database implementations): the
optional `text` / `type` / `extension` / `size` search terms. -/
structure SearchTerms where
  text : Option String := none
  type : Option String := none
  extension : Option String := none
  size : Option String := none
deriving DecidableEq

/-- Size comparison operator of `parseSizeQuery` (`>`, `>=`, `<`, `<=`,
default `=`). -/
inductive SzOp
  | gt
  | ge
  | lt
  | le
  | eq
deriving DecidableEq

/-- A parsed `size:` condition: the SQL comparison and its byte bound. -/
structure SizeCond where
  op : SzOp
  bytes : ℚ
deriving DecidableEq

/-- Evaluate a parsed size condition against a row's `size` column. -/
def evalSizeCond (c : SizeCond) (size : ℚ) : Bool :=
  match c.op with
  | .gt => size > c.bytes
  | .ge => size ≥ c.bytes
  | .lt => size < c.bytes
  | .le => size ≤ c.bytes
  | .eq => size == c.bytes

/-! ## DatabaseService (sqlite3 implementation, `src/electron/services/database.ts`) -/

namespace DatabaseService

/-- The `type:` alias switch of `parseSearchQuery`: the argument is the
already lower-cased value, the default branch upper-cases it. -/
def typeAliasOf (typeValue : String) : String :=
  if typeValue == "image" || typeValue == "img" || typeValue == "picture" then "IMAGE"
  else if typeValue == "video" || typeValue == "movie" then "VIDEO"
  else if typeValue == "audio" || typeValue == "music" || typeValue == "sound" then "AUDIO"
  else if typeValue == "document" || typeValue == "doc" || typeValue == "text" then "DOCUMENT"
  else if typeValue == "archive" || typeValue == "zip" || typeValue == "compressed" then "ARCHIVE"
  else if typeValue == "folder" || typeValue == "directory" || typeValue == "dir" then "DIRECTORY"
  else jsToUpper typeValue

/-- `DatabaseService.parseSearchQuery`: split the query on whitespace,
collect `type:` / `ext:` / `size:` operators (later occurrences overwrite
earlier ones) and join the remaining parts into the text term. -/
def parseSearchQuery (query : String) : SearchTerms :=
  let parts := jsSplitWs query
  let step : SearchTerms × List String → String → SearchTerms × List String :=
    fun st part =>
      let (terms, textParts) := st
      if jsStartsWith part "type:" then
        ({ terms with type := some (typeAliasOf (jsToLower (strDrop part 5))) }, textParts)
      else if jsStartsWith part "ext:" then
        ({ terms with extension := some (strDrop part 4) }, textParts)
      else if jsStartsWith part "size:" then
        ({ terms with size := some (strDrop part 5) }, textParts)
      else (terms, textParts ++ [part])
  let (terms, textParts) := parts.foldl step ({}, [])
  if textParts.length > 0 then { terms with text := some (joinSpace textParts) }
  else terms

/-- `DatabaseService.parseSizeQuery`: full-string match of
`^([<>]=?)?(\d+(?:\.\d+)?)(kb|mb|gb|tb)?$` (case-insensitive), converting
the value to bytes. -/
def parseSizeQuery (sizeQuery : String) : Option SizeCond :=
  let cs := sizeQuery.toList
  let (op, rest) : SzOp × List Char :=
    match cs with
    | '>' :: '=' :: r => (.ge, r)
    | '>' :: r => (.gt, r)
    | '<' :: '=' :: r => (.le, r)
    | '<' :: r => (.lt, r)
    | r => (.eq, r)
  let intPart := rest.takeWhile Char.isDigit
  if intPart.isEmpty then none
  else
    let rest2 := rest.dropWhile Char.isDigit
    let (value, rest3) : ℚ × List Char :=
      match rest2 with
      | '.' :: r3 =>
        let fracPart := r3.takeWhile Char.isDigit
        if fracPart.isEmpty then ((digitsToNat intPart : ℚ), rest2)
        else ((digitsToNat intPart : ℚ) +
                (digitsToNat fracPart : ℚ) / ((10 : ℚ) ^ fracPart.length),
              r3.dropWhile Char.isDigit)
      | _ => ((digitsToNat intPart : ℚ), rest2)
    let mult : Option ℚ :=
      match rest3 with
      | [] => some 1
      | [c1, c2] =>
        let u := String.mk [c1.toLower, c2.toLower]
        if u == "kb" then some 1024
        else if u == "mb" then some (1024 * 1024)
        else if u == "gb" then some (1024 * 1024 * 1024)
        else if u == "tb" then some (1024 * 1024 * 1024 * 1024)
        else none
      | _ => none
    match mult with
    | none => none
    | some m => some { op := op, bytes := value * m }

/-- The `WHERE` clause built by `searchFiles`, evaluated on one row.  A
term that is falsy in JS (absent, or the empty string) contributes no
condition; a `size:` term that `parseSizeQuery` rejects contributes no
condition. -/
def rowMatches (terms : SearchTerms) (r : Row) : Bool :=
  (match terms.type with
   | some t => if t == "" then true else r.type == t
   | none => true) &&
  (match terms.extension with
   | some e =>
     if e == "" then true
     else r.extension == (if jsStartsWith e "." then e else "." ++ e)
   | none => true) &&
  (match terms.size with
   | some s =>
     if s == "" then true
     else
       match parseSizeQuery s with
       | some c => evalSizeCond c r.size
       | none => true
   | none => true) &&
  (match terms.text with
   | some t =>
     if t == "" then true
     else
       let pat := '%' :: t.toList ++ ['%']
       likeMatch pat r.name.toList || likeMatch pat r.path.toList ||
         likeMatch pat r.fullPath.toList
   | none => true)

/-- The `ORDER BY` of `searchFiles`: directories (`isDirectory = 1`) before
files, then name ascending under `COLLATE NOCASE` (ASCII case folding).
SQLite leaves the relative order of equal keys unspecified; it is modelled
as stable. -/
def rowLe (a b : Row) : Bool :=
  let ka : ℕ := if a.isDirectory == 1 then 0 else 1
  let kb : ℕ := if b.isDirectory == 1 then 0 else 1
  if ka < kb then true
  else if kb < ka then false
  else charListLe (jsLowerC a.name.toList) (jsLowerC b.name.toList)

/-- The full (un-paginated) ordered result set of the `searchFiles` SQL
for a given table state and query. -/
def matchesOf (table : List Row) (query : String) : List Row :=
  jsSortBy rowLe (table.filter (rowMatches (parseSearchQuery query)))

/-- Row-to-record mapping of `searchFiles`. -/
def rowToFileItem (r : Row) : FileItem :=
  { id := r.id
    name := r.name
    path := r.path
    fullPath := r.fullPath
    extension := r.extension
    size := r.size
    dateModified := r.dateModified
    dateCreated := r.dateCreated
    isDirectory := r.isDirectory == 1
    type := r.type }

/-- `DatabaseService.searchFiles` (sqlite3 implementation): parse the
query, apply the `WHERE` conditions, order, apply `LIMIT`/`OFFSET`, map
rows to `FileItem`s. -/
def searchFiles (table : List Row) (query : String) (limit : ℕ) (offset : ℕ) :
    List FileItem :=
  (((matchesOf table query).drop offset).take limit).map rowToFileItem

end DatabaseService

/-! ## DatabaseService (better-sqlite3 implementation, `src/unnamed/part_000`) -/

namespace DatabaseServiceB

/-- The `type:` alias switch of the better-sqlite3 `parseSearchQuery`. -/
def typeAliasOf (typeValue : String) : String :=
  if typeValue == "image" || typeValue == "img" || typeValue == "picture" then "IMAGE"
  else if typeValue == "video" || typeValue == "movie" then "VIDEO"
  else if typeValue == "audio" || typeValue == "music" || typeValue == "sound" then "AUDIO"
  else if typeValue == "document" || typeValue == "doc" || typeValue == "text" then "DOCUMENT"
  else if typeValue == "archive" || typeValue == "zip" || typeValue == "compressed" then "ARCHIVE"
  else if typeValue == "folder" || typeValue == "directory" || typeValue == "dir" then "DIRECTORY"
  else jsToUpper typeValue

/-- The better-sqlite3 `parseSearchQuery` (textually identical logic). -/
def parseSearchQuery (query : String) : SearchTerms :=
  let parts := jsSplitWs query
  let step : SearchTerms × List String → String → SearchTerms × List String :=
    fun st part =>
      let (terms, textParts) := st
      if jsStartsWith part "type:" then
        ({ terms with type := some (typeAliasOf (jsToLower (strDrop part 5))) }, textParts)
      else if jsStartsWith part "ext:" then
        ({ terms with extension := some (strDrop part 4) }, textParts)
      else if jsStartsWith part "size:" then
        ({ terms with size := some (strDrop part 5) }, textParts)
      else (terms, textParts ++ [part])
  let (terms, textParts) := parts.foldl step ({}, [])
  if textParts.length > 0 then { terms with text := some (joinSpace textParts) }
  else terms

/-- The better-sqlite3 `parseSizeQuery` (textually identical logic). -/
def parseSizeQuery (sizeQuery : String) : Option SizeCond :=
  let cs := sizeQuery.toList
  let (op, rest) : SzOp × List Char :=
    match cs with
    | '>' :: '=' :: r => (.ge, r)
    | '>' :: r => (.gt, r)
    | '<' :: '=' :: r => (.le, r)
    | '<' :: r => (.lt, r)
    | r => (.eq, r)
  let intPart := rest.takeWhile Char.isDigit
  if intPart.isEmpty then none
  else
    let rest2 := rest.dropWhile Char.isDigit
    let (value, rest3) : ℚ × List Char :=
      match rest2 with
      | '.' :: r3 =>
        let fracPart := r3.takeWhile Char.isDigit
        if fracPart.isEmpty then ((digitsToNat intPart : ℚ), rest2)
        else ((digitsToNat intPart : ℚ) +
                (digitsToNat fracPart : ℚ) / ((10 : ℚ) ^ fracPart.length),
              r3.dropWhile Char.isDigit)
      | _ => ((digitsToNat intPart : ℚ), rest2)
    let mult : Option ℚ :=
      match rest3 with
      | [] => some 1
      | [c1, c2] =>
        let u := String.mk [c1.toLower, c2.toLower]
        if u == "kb" then some 1024
        else if u == "mb" then some (1024 * 1024)
        else if u == "gb" then some (1024 * 1024 * 1024)
        else if u == "tb" then some (1024 * 1024 * 1024 * 1024)
        else none
      | _ => none
    match mult with
    | none => none
    | some m => some { op := op, bytes := value * m }

/-- The better-sqlite3 `WHERE` clause, evaluated on one row. -/
def rowMatches (terms : SearchTerms) (r : Row) : Bool :=
  (match terms.type with
   | some t => if t == "" then true else r.type == t
   | none => true) &&
  (match terms.extension with
   | some e =>
     if e == "" then true
     else r.extension == (if jsStartsWith e "." then e else "." ++ e)
   | none => true) &&
  (match terms.size with
   | some s =>
     if s == "" then true
     else
       match parseSizeQuery s with
       | some c => evalSizeCond c r.size
       | none => true
   | none => true) &&
  (match terms.text with
   | some t =>
     if t == "" then true
     else
       let pat := '%' :: t.toList ++ ['%']
       likeMatch pat r.name.toList || likeMatch pat r.path.toList ||
         likeMatch pat r.fullPath.toList
   | none => true)

/-- The better-sqlite3 `ORDER BY`: directories first, then
case-insensitive name. -/
def rowLe (a b : Row) : Bool :=
  let ka : ℕ := if a.isDirectory == 1 then 0 else 1
  let kb : ℕ := if b.isDirectory == 1 then 0 else 1
  if ka < kb then true
  else if kb < ka then false
  else charListLe (jsLowerC a.name.toList) (jsLowerC b.name.toList)

/-- The full ordered result set of the better-sqlite3 `searchFiles` SQL. -/
def matchesOf (table : List Row) (query : String) : List Row :=
  jsSortBy rowLe (table.filter (rowMatches (parseSearchQuery query)))

/-- Row-to-record mapping of the better-sqlite3 `searchFiles`. -/
def rowToFileItem (r : Row) : FileItem :=
  { id := r.id
    name := r.name
    path := r.path
    fullPath := r.fullPath
    extension := r.extension
    size := r.size
    dateModified := r.dateModified
    dateCreated := r.dateCreated
    isDirectory := r.isDirectory == 1
    type := r.type }

/-- `DatabaseService.searchFiles` (better-sqlite3 implementation). -/
def searchFiles (table : List Row) (query : String) (limit : ℕ) (offset : ℕ) :
    List FileItem :=
  (((matchesOf table query).drop offset).take limit).map rowToFileItem

end DatabaseServiceB

/-! ## SearchService (`src/electron/services/search.ts`)

The four operator regexes of `parseSearchOperators` are modelled by
scanners over the character list: a scanner walks left to right, at each
position either consumes a match (reporting the token and the number of
characters consumed) or keeps the character in the residual string.  This
reproduces the semantics of `String.match(/…/gi)` (the token list) and
`String.replace(/…/gi, '')` (the residual). -/

/-- Generic left-to-right scanner with explicit fuel (one unit per input
character; every matcher of the sources consumes at least one character,
so `fuel = length` is always sufficient). -/
def scanAllF (m : List Char → Option (τ × ℕ)) : ℕ → List Char → List τ × List Char
  | 0, l => ([], l)
  | _ + 1, [] => ([], [])
  | fuel + 1, c :: rest =>
    match m (c :: rest) with
    | some (t, n) =>
      let (ts, r) := scanAllF m fuel (rest.drop (n - 1))
      (t :: ts, r)
    | none =>
      let (ts, r) := scanAllF m fuel rest
      (ts, c :: r)

/-- Scan a whole character list. -/
def scanAll (m : List Char → Option (τ × ℕ)) (l : List Char) : List τ × List Char :=
  scanAllF m l.length l

/-- Consume a literal case-insensitively (the `i` regex flag), returning
the rest of the input. -/
def eatLitCI : List Char → List Char → Option (List Char)
  | [], l => some l
  | _ :: _, [] => none
  | a :: as, b :: bs => if a.toLower == b.toLower then eatLitCI as bs else none

/-- JS `\w` word characters. -/
def isWordChar (c : Char) : Bool :=
  ('a' ≤ c && c ≤ 'z') || ('A' ≤ c && c ≤ 'Z') || ('0' ≤ c && c ≤ '9') || c == '_'

/-- JS `[a-zA-Z0-9]`. -/
def isAlphanumJS (c : Char) : Bool :=
  ('a' ≤ c && c ≤ 'z') || ('A' ≤ c && c ≤ 'Z') || ('0' ≤ c && c ≤ '9')

/-- Size operator of the SearchService `size:` pattern: explicit `>`/`<`
or the default (bare value). -/
inductive SizeOpJS
  | gt
  | lt
  | eqDefault
deriving DecidableEq

/-- Size unit of the SearchService `size:` pattern (`b` when the optional
unit group is absent). -/
inductive SizeUnit
  | b
  | kb
  | mb
  | gb
deriving DecidableEq

/-- One match of `/size:([><]?)(\d+)(kb|mb|gb)?/i`. -/
structure SizeTok where
  op : SizeOpJS
  value : ℕ
  unit : SizeUnit
deriving DecidableEq

/-- The `date:` keywords. -/
inductive DateKind
  | today
  | yesterday
  | week
  | month
  | year
deriving DecidableEq

/-- Environment for the JS `Date` operations: the clock and the
local-timezone calendar arithmetic used by the `date:` operator. -/
structure JsDateEnv where
  now : ℤ
  startOfDay : ℤ → ℤ
  subDays : ℤ → ℕ → ℤ
  subMonths : ℤ → ℕ → ℤ
  subYears : ℤ → ℕ → ℤ

namespace SearchService

/-- Matcher for `/ext:(\w+)/gi` at one position: the literal `ext:`
followed by a non-empty greedy run of word characters. -/
def matchExtAt (l : List Char) : Option (String × ℕ) :=
  match eatLitCI "ext:".toList l with
  | none => none
  | some rest =>
    let w := rest.takeWhile isWordChar
    if w.isEmpty then none else some (String.mk w, 4 + w.length)

/-- Matcher for `/type:(\w+)/gi` at one position. -/
def matchTypeAt (l : List Char) : Option (String × ℕ) :=
  match eatLitCI "type:".toList l with
  | none => none
  | some rest =>
    let w := rest.takeWhile isWordChar
    if w.isEmpty then none else some (String.mk w, 5 + w.length)

/-- Matcher for `/size:([><]?)(\d+)(kb|mb|gb)?/gi` at one position. -/
def matchSizeAt (l : List Char) : Option (SizeTok × ℕ) :=
  match eatLitCI "size:".toList l with
  | none => none
  | some rest =>
    let (op, rest1, opLen) : SizeOpJS × List Char × ℕ :=
      if rest.head? = some '>' then (.gt, rest.tail, 1)
      else if rest.head? = some '<' then (.lt, rest.tail, 1)
      else (.eqDefault, rest, 0)
    let ds := rest1.takeWhile Char.isDigit
    if ds.isEmpty then none
    else
      let rest2 := rest1.dropWhile Char.isDigit
      let (unit, uLen) : SizeUnit × ℕ :=
        match rest2 with
        | c1 :: c2 :: _ =>
          let u := [c1.toLower, c2.toLower]
          if u = ['k', 'b'] then (.kb, 2)
          else if u = ['m', 'b'] then (.mb, 2)
          else if u = ['g', 'b'] then (.gb, 2)
          else (.b, 0)
        | _ => (.b, 0)
      some ({ op := op, value := digitsToNat ds, unit := unit },
            5 + opLen + ds.length + uLen)

/-- Matcher for `/date:(today|yesterday|week|month|year)/gi` at one
position, trying the alternatives in source order. -/
def matchDateAt (l : List Char) : Option (DateKind × ℕ) :=
  match eatLitCI "date:".toList l with
  | none => none
  | some rest =>
    match eatLitCI "today".toList rest with
    | some _ => some (.today, 5 + 5)
    | none =>
      match eatLitCI "yesterday".toList rest with
      | some _ => some (.yesterday, 5 + 9)
      | none =>
        match eatLitCI "week".toList rest with
        | some _ => some (.week, 5 + 4)
        | none =>
          match eatLitCI "month".toList rest with
          | some _ => some (.month, 5 + 5)
          | none =>
            match eatLitCI "year".toList rest with
            | some _ => some (.year, 5 + 4)
            | none => none

/-- Byte multiplier of the `size:` unit switch (default unit `b`). -/
def unitMult : SizeUnit → ℚ
  | .b => 1
  | .kb => 1024
  | .mb => 1024 * 1024
  | .gb => 1024 * 1024 * 1024

/-- The parsed operators of `parseSearchOperators` (each field is set only
when the corresponding regex matched). -/
structure Operators where
  extensions : Option (List String) := none
  sizeMin : Option ℚ := none
  sizeMax : Option ℚ := none
  dateModifiedFrom : Option ℤ := none
  dateModifiedTo : Option ℤ := none
  fileTypes : Option (List String) := none
deriving DecidableEq

/-- The `forEach` body of the `size:` handler: `>` sets the minimum bound,
`<` the maximum bound, a bare value sets the ±10% band; later matches
overwrite the field they set. -/
def applySizeTok (acc : Option ℚ × Option ℚ) (t : SizeTok) : Option ℚ × Option ℚ :=
  let bytes : ℚ := (t.value : ℚ) * unitMult t.unit
  match t.op with
  | .gt => (some bytes, acc.2)
  | .lt => (acc.1, some bytes)
  | .eqDefault => (some (bytes * (0.9 : ℚ)), some (bytes * (1.1 : ℚ)))

/-- The `date:` switch: modification bounds derived from the current time
and local calendar. -/
def dateBounds (env : JsDateEnv) : DateKind → Option ℤ × Option ℤ
  | .today => (some (env.startOfDay env.now), none)
  | .yesterday =>
    (some (env.startOfDay (env.subDays env.now 1)), some (env.startOfDay env.now))
  | .week => (some (env.subDays env.now 7), none)
  | .month => (some (env.subMonths env.now 1), none)
  | .year => (some (env.subYears env.now 1), none)

/-- The `type:` alias switch of the SearchService (mapping to the
lower-case `FileType` enum values; unknown values pass through). -/
def typeAliasOf (t : String) : String :=
  if t == "doc" || t == "document" || t == "documents" then FileType.DOCUMENT
  else if t == "img" || t == "image" || t == "images" then FileType.IMAGE
  else if t == "vid" || t == "video" || t == "videos" then FileType.VIDEO
  else if t == "audio" || t == "music" then FileType.AUDIO
  else if t == "archive" || t == "zip" then FileType.ARCHIVE
  else if t == "code" || t == "source" then FileType.CODE
  else if t == "folder" || t == "directory" || t == "dir" then FileType.DIRECTORY
  else t

/-- `SearchService.parseSearchOperators`: extract the four operator kinds
from the query (matching always against the original query) and strip each
matched substring from the running clean query, trimming after each strip
that actually happened. -/
def parseSearchOperators (env : JsDateEnv) (query : String) : Operators × String :=
  let qc := query.toList
  let extToks := (scanAll matchExtAt qc).1
  let cq1 := if extToks.isEmpty then qc else jsTrimC (scanAll matchExtAt qc).2
  let sizeToks := (scanAll matchSizeAt qc).1
  let cq2 := if sizeToks.isEmpty then cq1 else jsTrimC (scanAll matchSizeAt cq1).2
  let dateToks := (scanAll matchDateAt qc).1
  let cq3 := if dateToks.isEmpty then cq2 else jsTrimC (scanAll matchDateAt cq2).2
  let typeToks := (scanAll matchTypeAt qc).1
  let cq4 := if typeToks.isEmpty then cq3 else jsTrimC (scanAll matchTypeAt cq3).2
  let szb := sizeToks.foldl applySizeTok (none, none)
  let dateB : Option ℤ × Option ℤ :=
    match dateToks.head? with
    | some k => dateBounds env k
    | none => (none, none)
  ({ extensions :=
       if extToks.isEmpty then none
       else some (extToks.map fun w => "." ++ jsToLower w)
     sizeMin := szb.1
     sizeMax := szb.2
     dateModifiedFrom := dateB.1
     dateModifiedTo := dateB.2
     fileTypes :=
       if typeToks.isEmpty then none
       else some (typeToks.map fun w => typeAliasOf (jsToLower w)) },
   String.mk cq4)

/-- The filters actually applied after `combineFilters`: every field is
present (JS `||`-defaulted), `sizeMax` lives in `WithTop ℚ` because the
default is `Infinity`. -/
structure CombinedFilters where
  fileTypes : List String
  extensions : List String
  sizeMin : ℚ
  sizeMax : WithTop ℚ
  dateModifiedFrom : Option ℤ
  dateModifiedTo : Option ℤ
  includeDirectories : Option Bool
deriving DecidableEq

/-- Caller-supplied `SearchFilters` (all fields optional). -/
structure SearchFilters where
  fileTypes : Option (List String) := none
  extensions : Option (List String) := none
  sizeMin : Option ℚ := none
  sizeMax : Option ℚ := none
  dateModifiedFrom : Option ℤ := none
  dateModifiedTo : Option ℤ := none
  includeDirectories : Option Bool := none
deriving DecidableEq

/-- JS `x || Infinity` for an optional number: absent or `0` gives
`Infinity`. -/
def orInfinity : Option ℚ → WithTop ℚ
  | some x => if x = 0 then ⊤ else (x : WithTop ℚ)
  | none => ⊤

/-- `SearchService.combineFilters`. -/
def combineFilters (filters : SearchFilters) (operators : Operators) : CombinedFilters :=
  { extensions := filters.extensions.getD [] ++ operators.extensions.getD []
    fileTypes := filters.fileTypes.getD [] ++ operators.fileTypes.getD []
    sizeMin := max (filters.sizeMin.getD 0) (operators.sizeMin.getD 0)
    sizeMax := min (orInfinity filters.sizeMax) (orInfinity operators.sizeMax)
    dateModifiedFrom := operators.dateModifiedFrom.or filters.dateModifiedFrom
    dateModifiedTo := operators.dateModifiedTo.or filters.dateModifiedTo
    includeDirectories := filters.includeDirectories }

/-- `SearchService.shouldUseFuzzySearch`: length above 3 and a wildcard or
a character outside `[a-zA-Z0-9\s\-_.]`. -/
def shouldUseFuzzySearch (query : String) : Bool :=
  decide (3 < query.length) &&
    (query.toList.contains '*' || query.toList.contains '?' ||
      query.toList.any fun c =>
        !(isAlphanumJS c || isSpaceJS c || c == '-' || c == '_' || c == '.'))

/-- `SearchService.applyFilters`: the defensive re-application of every
active filter, mirroring the early-return chain (a JS-falsy bound is
skipped). -/
def applyFilters (files : List FileItem) (filters : CombinedFilters) : List FileItem :=
  files.filter fun file =>
    if decide (0 < filters.fileTypes.length) && !(filters.fileTypes.contains file.type) then
      false
    else if decide (0 < filters.extensions.length) &&
        !(filters.extensions.contains file.extension) then
      false
    else if !(filters.sizeMin == 0) && decide (file.size < filters.sizeMin) then
      false
    else if !(filters.sizeMax == (0 : WithTop ℚ)) &&
        decide (filters.sizeMax < (file.size : WithTop ℚ)) then
      false
    else if (match filters.dateModifiedFrom with
             | some d => decide (file.dateModified < d)
             | none => false) then
      false
    else if (match filters.dateModifiedTo with
             | some d => decide (d < file.dateModified)
             | none => false) then
      false
    else if filters.includeDirectories == some false && file.isDirectory then
      false
    else true

/-- `SearchService.calculateRelevanceScore` (the `Date.now()` of the
recency bonus is the `now` parameter). -/
def calculateRelevanceScore (now : ℤ) (file : FileItem) (query : String) : ℚ :=
  let queryLower := jsToLower query
  let nameLower := jsToLower file.name
  let pathLower := jsToLower file.path
  let nameScore : ℚ :=
    if nameLower == queryLower then 100
    else if jsStartsWith nameLower queryLower then 80
    else if jsIncludes nameLower queryLower then 60
    else 0
  let pathScore : ℚ := if jsIncludes pathLower queryLower then 20 else 0
  let daysSinceModified : ℚ :=
    ((now - file.dateModified : ℤ) : ℚ) / (1000 * 60 * 60 * 24)
  let recencyScore : ℚ :=
    if daysSinceModified < 7 then 10
    else if daysSinceModified < 30 then 5
    else 0
  let sizeScore : ℚ := if file.size < 1024 * 1024 then 5 else 0
  nameScore + pathScore + recencyScore + sizeScore

/-- `SearchService.sortResults`: newest first for an empty query,
relevance (descending score, stable) otherwise. -/
def sortResults (now : ℤ) (files : List FileItem) (query : String) : List FileItem :=
  if jsTrim query == "" then
    jsSortBy (fun a b => decide (b.dateModified ≤ a.dateModified)) files
  else
    jsSortBy
      (fun a b =>
        decide (calculateRelevanceScore now b query ≤ calculateRelevanceScore now a query))
      files

/-- `SearchResult` (the wall-clock `executionTime` field is not
modelled). -/
structure SearchResult where
  items : List FileItem
  totalCount : ℕ
  query : String
deriving DecidableEq

/-- `SearchService.databaseSearch`: delegate to the store with a doubled
limit ("get more results for filtering"). -/
def databaseSearch (db : String → ℕ → ℕ → Except String (List FileItem))
    (query : String) (limit offset : ℕ) : Except String (List FileItem) :=
  db query (limit * 2) offset

/-- `SearchService.searchWithFilters`: an empty-text store query with a
doubled limit. -/
def searchWithFilters (db : String → ℕ → ℕ → Except String (List FileItem))
    (limit offset : ℕ) : Except String (List FileItem) :=
  db "" (limit * 2) offset

/-- `SearchService.fuzzySearch`: query the Fuse index (supplied as an
opaque fallible function) with a doubled limit. -/
def fuzzySearch (fuzzy : String → ℕ → Except String (List FileItem))
    (query : String) (limit : ℕ) : Except String (List FileItem) :=
  fuzzy query (limit * 2)

/-- The three-way strategy branch of `SearchService.search`, evaluated on
the clean query. -/
inductive SearchStrategy
  | filtersOnly
  | fuzzy
  | database
deriving DecidableEq

/-- Which branch `SearchService.search` takes for a given clean query. -/
def chooseStrategy (cleanQuery : String) : SearchStrategy :=
  if jsTrim cleanQuery == "" then .filtersOnly
  else if shouldUseFuzzySearch cleanQuery then .fuzzy
  else .database

/-- The body of `SearchService.search` inside its `try`: parse, combine,
pick a strategy, fetch, post-filter, sort, slice.  Failures of the store
or fuzzy calls propagate as `Except.error`. -/
def searchRaw (env : JsDateEnv)
    (db : String → ℕ → ℕ → Except String (List FileItem))
    (fuzzy : String → ℕ → Except String (List FileItem))
    (query : String) (filters : SearchFilters) (limit offset : ℕ) :
    Except String SearchResult := do
  let operators := (parseSearchOperators env query).1
  let cleanQuery := (parseSearchOperators env query).2
  let combined := combineFilters filters operators
  let results ←
    if jsTrim cleanQuery == "" then searchWithFilters db limit offset
    else if shouldUseFuzzySearch cleanQuery then fuzzySearch fuzzy cleanQuery limit
    else databaseSearch db cleanQuery limit offset
  let filtered := applyFilters results combined
  let sorted := sortResults env.now filtered cleanQuery
  pure { items := (sorted.drop offset).take limit
         totalCount := sorted.length
         query := query }

/-- `SearchService.search`: the `catch` branch converts any error into an
empty result set echoing the query. -/
def search (env : JsDateEnv)
    (db : String → ℕ → ℕ → Except String (List FileItem))
    (fuzzy : String → ℕ → Except String (List FileItem))
    (query : String) (filters : SearchFilters) (limit offset : ℕ) : SearchResult :=
  match searchRaw env db fuzzy query filters limit offset with
  | .ok r => r
  | .error _ => { items := [], totalCount := 0, query := query }

/-- One weighted key of the Fuse options in `updateFuseIndex`. -/
structure FuseKeyWeight where
  name : String
  weight : ℚ
deriving DecidableEq

/-- The weighted keys of the Fuse index built by `updateFuseIndex`. -/
def fuseKeys : List FuseKeyWeight :=
  [⟨"name", 0.7⟩, ⟨"path", 0.2⟩, ⟨"extension", 0.1⟩]

/-- The Fuse matching threshold of `updateFuseIndex`. -/
def fuseThreshold : ℚ := 0.4

end SearchService

/-! ## FileIndexer (`src/electron/services/indexer.ts`) and
FileWatcher (`file-watcher.ts`)

The filesystem is modelled as a tree of entries; a file node carries the
`fs.stat` result the scanner would obtain for it (stat failures simply
correspond to the entry being absent from the tree).  Paths use the
POSIX separator `'/'`; `path.normalize` on such already-normal paths is the
identity, and `process.platform` is fixed to a non-win32 value.  Directory
children are a bespoke list type `FSList` so that the scanner can be
defined by kernel-computable structural recursion. -/

/-- An `fs.stat` result for a scanned file. -/
structure FileStat where
  size : ℚ
  mtime : ℤ
  birthtime : ℤ
  ctime : ℤ
deriving DecidableEq

mutual

/-- A filesystem entry: a file with its stat data, or a directory with its
children. -/
inductive FSNode
  | file (name : String) (st : FileStat)
  | dir (name : String) (children : FSList)

/-- A list of filesystem entries. -/
inductive FSList
  | nil
  | cons (head : FSNode) (tail : FSList)

end

/-- Build an `FSList` from an ordinary list of nodes. -/
def fsList : List FSNode → FSList
  | [] => .nil
  | e :: r => .cons e (fsList r)

/-- `process.platform === 'win32'` — the model fixes the POSIX path
convention. -/
def platformIsWin32 : Bool := false

/-- Node `path.relative(root, target)` for the in-tree case: the scanner
and watcher only form targets at or below the root. -/
def relativeOf (root target : String) : String :=
  if target == root then ""
  else if jsStartsWith target (root ++ "/") then strDrop target (root.length + 1)
  else target

/-- The extension lists and classification switch of the (textually
identical) private `getFileType` methods of `FileIndexer` and
`FileWatcher`. -/
def getFileType (fileName : String) (isDirectory : Bool) : String :=
  if isDirectory then FileType.DIRECTORY
  else
    let extension := jsToLower (extnameOf fileName)
    let documentExts := [".pdf", ".doc", ".docx", ".txt", ".rtf", ".odt",
      ".xls", ".xlsx", ".ppt", ".pptx"]
    let imageExts := [".jpg", ".jpeg", ".png", ".gif", ".bmp", ".svg",
      ".webp", ".ico", ".tiff"]
    let videoExts := [".mp4", ".avi", ".mkv", ".mov", ".wmv", ".flv",
      ".webm", ".m4v"]
    let audioExts := [".mp3", ".wav", ".flac", ".aac", ".ogg", ".wma", ".m4a"]
    let archiveExts := [".zip", ".rar", ".7z", ".tar", ".gz", ".bz2", ".xz"]
    let codeExts := [".js", ".ts", ".jsx", ".tsx", ".py", ".java", ".c",
      ".cpp", ".cs", ".php", ".rb", ".go", ".rs", ".html", ".css", ".scss",
      ".json", ".xml", ".yaml", ".yml"]
    if documentExts.contains extension then FileType.DOCUMENT
    else if imageExts.contains extension then FileType.IMAGE
    else if videoExts.contains extension then FileType.VIDEO
    else if audioExts.contains extension then FileType.AUDIO
    else if archiveExts.contains extension then FileType.ARCHIVE
    else if codeExts.contains extension then FileType.CODE
    else FileType.OTHER

namespace FileIndexer

/-- The fixed default exclusion denylist of `shouldExcludePath`. -/
def defaultExclusions : List String :=
  ["node_modules", ".git", ".svn", ".hg", "temp", "tmp", "$recycle.bin",
   "system volume information", "windows", "appdata", ".cache", ".npm",
   ".yarn", "cache", "logs", ".vscode", ".idea", "build", "dist", "out",
   "target"]

/-- `FileIndexer.shouldExcludePath`: lower-case the normalized path, split
into segments; excluded when some default or caller token matches a
segment exactly or occurs as a substring of the whole path, or when the
segment count exceeds 20. -/
def shouldExcludePath (currentPath : String) (excludePaths : List String) : Bool :=
  let normalizedPath := jsToLower currentPath
  let pathParts := jsSplitChar '/' normalizedPath
  if (defaultExclusions ++ excludePaths).any (fun exclusion =>
       let normalizedExclusion := jsToLower exclusion
       pathParts.contains normalizedExclusion ||
         jsIncludes normalizedPath normalizedExclusion) then
    true
  else if decide (20 < pathParts.length) then true
  else false

/-- The Windows system file names skipped by the scanner entry loop. -/
def winSystemFiles : List String := ["pagefile.sys", "hiberfil.sys", "swapfile.sys"]

/-- Is a scanner entry skipped before any processing (hidden or `$`-named,
or a Windows system file)? -/
def skipEntryName (name : String) : Bool :=
  jsStartsWith name "." || jsStartsWith name "$" ||
    (platformIsWin32 && winSystemFiles.contains (jsToLower name))

/-- The `FileItem` the scanner builds for one file entry. -/
def mkScanItem (uuid : String → String) (rootPath currentPath name : String)
    (st : FileStat) : FileItem :=
  let fullPath := currentPath ++ "/" ++ name
  let relativePath := relativeOf rootPath (dirnameOf fullPath)
  { id := uuid fullPath
    name := name
    path := if relativePath == "" then "." else relativePath
    fullPath := fullPath
    extension := jsToLower (extnameOf name)
    size := st.size
    dateModified := st.mtime
    dateCreated := st.birthtime
    isDirectory := false
    type := getFileType name false }

/-- First pass of `scanDirectory` over one directory's entries: the
records of the (not skipped) file entries, in order.  Directory entries
produce nothing here. -/
def scanFilesAt (uuid : String → String) (rootPath currentPath : String) :
    FSList → List FileItem
  | .nil => []
  | .cons (.file name st) rest =>
    (if skipEntryName name then []
     else [mkScanItem uuid rootPath currentPath name st]) ++
      scanFilesAt uuid rootPath currentPath rest
  | .cons (.dir _ _) rest => scanFilesAt uuid rootPath currentPath rest

/-- Second pass of `scanDirectory`: recurse into the collected (not
skipped) subdirectories after the files of the level are done.  The body
of the recursive `scanDirectory` call is inlined (exclusion check, files
pass, directories pass) so the recursion is structural. -/
def scanSubdirs (uuid : String → String) (rootPath : String)
    (excludePaths : List String) : String → FSList → List FileItem
  | _, .nil => []
  | currentPath, .cons (.file _ _) rest =>
    scanSubdirs uuid rootPath excludePaths currentPath rest
  | currentPath, .cons (.dir name cs) rest =>
    (if skipEntryName name then []
     else
       if shouldExcludePath (currentPath ++ "/" ++ name) excludePaths then []
       else
         scanFilesAt uuid rootPath (currentPath ++ "/" ++ name) cs ++
           scanSubdirs uuid rootPath excludePaths (currentPath ++ "/" ++ name) cs) ++
      scanSubdirs uuid rootPath excludePaths currentPath rest

/-- `FileIndexer.scanDirectory` on the children of `currentPath`: an
excluded directory is skipped wholesale, otherwise files of the level
first, then the subdirectory recursion. -/
def scanDirectory (uuid : String → String) (rootPath : String)
    (excludePaths : List String) (currentPath : String)
    (children : FSList) : List FileItem :=
  if shouldExcludePath currentPath excludePaths then []
  else
    scanFilesAt uuid rootPath currentPath children ++
      scanSubdirs uuid rootPath excludePaths currentPath children

/-- The guard at the top of `FileIndexer.startIndexing`: throw when a run
is already active, otherwise the `isIndexing` flag becomes true. -/
def startIndexingGuard (isIndexing : Bool) : Except String Bool :=
  if isIndexing then .error "Indexing already in progress" else .ok true

end FileIndexer

/-- An `fs.stat` result as used by the watcher (`stats.isDirectory()` is
consulted, so it is part of the record). -/
structure WatchStat where
  isDirectory : Bool
  size : ℚ
  mtime : ℤ
  birthtime : ℤ
deriving DecidableEq

namespace FileWatcher

/-- `FileWatcher.createFileItem`: stat the path and build the record; a
directory gets an empty extension, but `size` is taken from the stat
result unconditionally. -/
def createFileItem (uuid : String → String) (filePath rootPath : String)
    (stats : WatchStat) : FileItem :=
  let fileName := basenameOf filePath
  let relativePath := relativeOf rootPath (dirnameOf filePath)
  { id := uuid filePath
    name := fileName
    path := if relativePath == "" then "." else relativePath
    fullPath := filePath
    extension := if stats.isDirectory then "" else jsToLower (extnameOf fileName)
    size := stats.size
    dateModified := stats.mtime
    dateCreated := stats.birthtime
    isDirectory := stats.isDirectory
    type := getFileType fileName stats.isDirectory }

end FileWatcher

/-! ## IpcHandlers (`src/electron/services/ipc-handlers.ts`) -/

/-- An element of the IPC request's `paths` array: a string or some other
JS value. -/
inductive ReqElem
  | str (s : String)
  | nonString
deriving DecidableEq

/-- `IpcIndexRequest`: `paths := none` models a missing or non-array
value, as does `excludePaths := none`. -/
structure IpcIndexRequest where
  paths : Option (List ReqElem)
  excludePaths : Option (List String)
deriving DecidableEq

/-- Outcome of the `start-indexing` IPC handler. -/
inductive StartIndexingOutcome
  | errorAlreadyInProgress
  | errorNoValidPaths
  | ok (validPaths : List String) (excludePaths : List String)
deriving DecidableEq

namespace IpcHandlers

/-- The handler's path filter, `p => typeof p === 'string' && p.trim().length > 0`,
as an `Option`-valued keep function. -/
def keepValidPath : ReqElem → Option String
  | .str s => if decide (0 < (jsTrim s).length) then some s else none
  | .nonString => none

/-- The valid paths kept by the handler's filter: string elements with a
non-blank trim. -/
def validPathsOf (req : IpcIndexRequest) : List String :=
  (req.paths.getD []).filterMap keepValidPath

/-- The decision logic of the `start-indexing` IPC handler: reject when a
run is active, then when `paths` is missing/empty or filters down to
nothing; otherwise start with the valid paths and the (array-checked)
exclude paths. -/
def startIndexingHandler (isCurrentlyIndexing : Bool) (req : IpcIndexRequest) :
    StartIndexingOutcome :=
  if isCurrentlyIndexing then .errorAlreadyInProgress
  else
    match req.paths with
    | none => .errorNoValidPaths
    | some paths =>
      if paths.isEmpty then .errorNoValidPaths
      else
        let validPaths := paths.filterMap keepValidPath
        if validPaths.isEmpty then .errorNoValidPaths
        else .ok validPaths (req.excludePaths.getD [])

end IpcHandlers

/-! ## Concrete instances used by witnesses and counterexamples -/

/-- A date environment with a zero clock and trivial calendar (no claim
under test involves the `date:` operator values). -/
def sampleEnv : JsDateEnv := ⟨0, id, fun t _ => t, fun t _ => t, fun t _ => t⟩

/-- Row `aᵢ` of the sample store. -/
def sampleRow (i : ℕ) : Row :=
  { id := toString i, name := "a" ++ toString i, path := ".",
    fullPath := "/data/a" ++ toString i, extension := "", size := 5,
    dateModified := 0, dateCreated := 0, isDirectory := 0, type := "other" }

/-- A sample store with eleven matching file rows. -/
def sampleTable : List Row := (List.range 11).map sampleRow

/-- The search pipeline's store callback over a given table state. -/
def storeDb (table : List Row) : String → ℕ → ℕ → Except String (List FileItem) :=
  fun query limit offset => .ok (DatabaseService.searchFiles table query limit offset)

/-- A fuzzy index that matches nothing. -/
def emptyFuzzy : String → ℕ → Except String (List FileItem) := fun _ _ => .ok []

/-- A store whose reads fail. -/
def failingDb : String → ℕ → ℕ → Except String (List FileItem) :=
  fun _ _ _ => .error "store read failure"

/-- A fuzzy index whose queries fail. -/
def failingFuzzy : String → ℕ → Except String (List FileItem) :=
  fun _ _ => .error "fuzzy index unavailable"

/-- A recognisable record used to observe which strategy fetched it. -/
def markerItem : FileItem :=
  ⟨"m1", "marker", ".", "/data/marker", "", 5, 0, 0, false, "other"⟩

/-- A store that returns only the marker record. -/
def markerDb : String → ℕ → ℕ → Except String (List FileItem) :=
  fun _ _ _ => .ok [markerItem]

/-- Fixture record `report.txt`. -/
def reportItem : FileItem :=
  ⟨"1", "report.txt", ".", "/docs/report.txt", ".txt", 5, 0, 0, false, "document"⟩

/-- Fixture record `quarterly_report.txt` (all non-name fields equal to
`reportItem`). -/
def quarterlyItem : FileItem :=
  ⟨"2", "quarterly_report.txt", ".", "/docs/quarterly_report.txt", ".txt", 5, 0, 0,
   false, "document"⟩

/-- A one-file fixture tree. -/
def sampleTree : FSList := fsList [.file "doc.txt" ⟨5, 0, 0, 0⟩]

/-- The record the scanner builds for the fixture tree's file. -/
def sampleScanItem : FileItem := FileIndexer.mkScanItem id "/data" "/data" "doc.txt" ⟨5, 0, 0, 0⟩

/-- A fixture tree whose only file is named like an exclusion token. -/
def tempTree : FSList := fsList [.file "temp" ⟨5, 0, 0, 0⟩]

/-- The characters of a `size:` operator variant as written in a query. -/
def opChars : SizeOpJS → List Char
  | .gt => ['>']
  | .lt => ['<']
  | .eqDefault => []

/-- The characters of a size unit as written (lower-case) in a query. -/
def unitChars : SizeUnit → List Char
  | .b => []
  | .kb => ['k', 'b']
  | .mb => ['m', 'b']
  | .gb => ['g', 'b']

/-! ## Helper lemmas -/

/-- Inserting adds one element. -/
theorem jsInsertBy_length (le : α → α → Bool) (x : α) :
    ∀ l : List α, (jsInsertBy le x l).length = l.length + 1
  | [] => rfl
  | y :: ys => by
    by_cases h : le x y = true
    · simp [jsInsertBy, h]
    · simp [jsInsertBy, h, jsInsertBy_length le x ys]

/-- Sorting preserves length. -/
theorem jsSortBy_length (le : α → α → Bool) :
    ∀ l : List α, (jsSortBy le l).length = l.length
  | [] => rfl
  | x :: xs => by
    simp [jsSortBy, jsInsertBy_length, jsSortBy_length le xs]

/-- The post-filter never adds records. -/
theorem applyFilters_length_le (files : List FileItem)
    (filters : SearchService.CombinedFilters) :
    (SearchService.applyFilters files filters).length ≤ files.length :=
  List.length_filter_le _ _

/-- Dropping nothing from a list with an all-false predicate. -/
theorem dropWhile_all_false {p : α → Bool} :
    ∀ {l : List α}, (∀ c ∈ l, p c = false) → l.dropWhile p = l
  | [], _ => rfl
  | c :: rest, h => by
    have hc := h c (by simp)
    simp [List.dropWhile, hc]

/-- The trim of a list is empty exactly when every character is
whitespace. -/
theorem jsTrimC_eq_nil_iff {l : List Char} :
    jsTrimC l = [] ↔ ∀ c ∈ l, isSpaceJS c = true := by
  unfold jsTrimC
  constructor
  · intro h c hc
    have h1 : (l.dropWhile isSpaceJS).reverse.dropWhile isSpaceJS = [] := by
      rwa [List.reverse_eq_nil_iff] at h
    have h3 : ∀ x ∈ l.dropWhile isSpaceJS, isSpaceJS x = true := fun x hx =>
      List.dropWhile_eq_nil_iff.mp h1 x (List.mem_reverse.mpr hx)
    have hsplit := List.takeWhile_append_dropWhile isSpaceJS l
    rw [← hsplit] at hc
    rcases List.mem_append.mp hc with h' | h'
    · exact List.mem_takeWhile_imp h'
    · exact h3 c h'
  · intro h
    have : l.dropWhile isSpaceJS = [] := List.dropWhile_eq_nil_iff.mpr h
    simp [this]

/-- A non-whitespace character keeps the trim non-empty. -/
theorem jsTrimC_ne_nil_of_mem {l : List Char} {c : Char} (hc : c ∈ l)
    (hs : isSpaceJS c = false) : jsTrimC l ≠ [] := by
  intro h
  have := jsTrimC_eq_nil_iff.mp h c hc
  rw [this] at hs
  exact Bool.noConfusion hs

/-! ## Claim C9 -/

/-- C9: the two coexisting `DatabaseService.searchFiles` implementations
(callback sqlite3 in `database.ts`, better-sqlite3 in
`src/unnamed/part_000`) are extensionally equal: for every table state,
query, limit and offset they parse identically, apply the same `WHERE`
conditions and ordering, and map rows to identical `FileItem` lists. -/
theorem claim_C9_searchFiles_equivalence (table : List Row) (query : String)
    (limit offset : ℕ) :
    DatabaseService.searchFiles table query limit offset =
      DatabaseServiceB.searchFiles table query limit offset := rfl

/-! ## Claim C4 -/

/-- C4: whenever the body of `SearchService.search` raises any error, the
search boundary returns an empty result set with `totalCount = 0` echoing
the original query instead of propagating the exception. -/
theorem claim_C4_search_failure_returns_empty (env : JsDateEnv)
    (db : String → ℕ → ℕ → Except String (List FileItem))
    (fuzzy : String → ℕ → Except String (List FileItem))
    (query : String) (filters : SearchService.SearchFilters) (limit offset : ℕ)
    (e : String)
    (h : SearchService.searchRaw env db fuzzy query filters limit offset = .error e) :
    SearchService.search env db fuzzy query filters limit offset =
      { items := [], totalCount := 0, query := query } := by
  unfold SearchService.search
  rw [h]

/-- Witness for C4: against a store whose reads fail, the search for
`"report"` returns the empty result set. -/
theorem claim_C4_search_failure_returns_empty_witness :
    SearchService.searchRaw sampleEnv failingDb emptyFuzzy "report" {} 100 0 =
      .error "store read failure" ∧
    SearchService.search sampleEnv failingDb emptyFuzzy "report" {} 100 0 =
      { items := [], totalCount := 0, query := "report" } :=
  ⟨rfl,
   claim_C4_search_failure_returns_empty sampleEnv failingDb emptyFuzzy "report" {}
     100 0 "store read failure" rfl⟩

/-! ## Claim C8 -/

/-- C8: the start-indexing boundary fails exactly in two cases — "already
indexing" when a run is in progress, and "no valid paths" when the `paths`
list is missing, empty, or contains no non-blank string — and in every
other case reports success with the valid paths (and the indexer's own
guard then admits the run). -/
theorem claim_C8_start_indexing_contract (isIndexing : Bool) (req : IpcIndexRequest) :
    (IpcHandlers.startIndexingHandler isIndexing req = .errorAlreadyInProgress ↔
      isIndexing = true) ∧
    (IpcHandlers.startIndexingHandler isIndexing req = .errorNoValidPaths ↔
      isIndexing = false ∧ IpcHandlers.validPathsOf req = []) ∧
    (isIndexing = false → IpcHandlers.validPathsOf req ≠ [] →
      IpcHandlers.startIndexingHandler isIndexing req =
        .ok (IpcHandlers.validPathsOf req) (req.excludePaths.getD [])) ∧
    (isIndexing = false → FileIndexer.startIndexingGuard isIndexing = .ok true) := by
  obtain ⟨paths, excludePaths⟩ := req
  cases isIndexing
  · cases paths with
    | none =>
      simp [IpcHandlers.startIndexingHandler, IpcHandlers.validPathsOf,
        FileIndexer.startIndexingGuard]
    | some l =>
      by_cases hl : l = []
      · subst hl
        simp [IpcHandlers.startIndexingHandler, IpcHandlers.validPathsOf,
          FileIndexer.startIndexingGuard]
      · by_cases hv : l.filterMap IpcHandlers.keepValidPath = []
        · simp [IpcHandlers.startIndexingHandler, IpcHandlers.validPathsOf,
            FileIndexer.startIndexingGuard, hl, hv, List.isEmpty_iff]
        · simp [IpcHandlers.startIndexingHandler, IpcHandlers.validPathsOf,
            FileIndexer.startIndexingGuard, hl, hv, List.isEmpty_iff]
  · simp [IpcHandlers.startIndexingHandler, IpcHandlers.validPathsOf,
      FileIndexer.startIndexingGuard]

/-- Witness for C8: with no run active and one valid path, the handler
reports success with that path. -/
theorem claim_C8_start_indexing_contract_witness :
    IpcHandlers.validPathsOf ⟨some [.str "/home", .str "  ", .nonString], none⟩ ≠ [] ∧
    IpcHandlers.startIndexingHandler false ⟨some [.str "/home", .str "  ", .nonString], none⟩ =
      .ok (IpcHandlers.validPathsOf ⟨some [.str "/home", .str "  ", .nonString], none⟩)
        ((⟨some [.str "/home", .str "  ", .nonString], none⟩ : IpcIndexRequest).excludePaths.getD []) :=
  ⟨by decide,
   (claim_C8_start_indexing_contract false
       ⟨some [.str "/home", .str "  ", .nonString], none⟩).2.2.1 rfl (by decide)⟩

/-! ## Claim C7 -/

/-- C7 counterexample: for a directory whose stat reports a 4096-byte
size (the usual case on ext4), `FileWatcher.createFileItem` stores a
directory record with a positive size, so "a directory record never
carries a positive size" fails on the code. -/
theorem claim_C7_counterexample :
    (FileWatcher.createFileItem id "/data/sub" "/data" ⟨true, 4096, 7, 3⟩).isDirectory =
      true ∧
    (FileWatcher.createFileItem id "/data/sub" "/data" ⟨true, 4096, 7, 3⟩).size = 4096 ∧
    ((4096 : ℚ) = 0 → False) := by decide

/-- C7 amended: every record the watcher builds for a directory has an
empty extension, but its size is whatever the stat result reports — it is
not forced to 0. -/
theorem claim_C7_directory_record_amended (uuid : String → String)
    (filePath rootPath : String) (stats : WatchStat)
    (h : stats.isDirectory = true) :
    (FileWatcher.createFileItem uuid filePath rootPath stats).extension = "" ∧
    (FileWatcher.createFileItem uuid filePath rootPath stats).size = stats.size ∧
    (FileWatcher.createFileItem uuid filePath rootPath stats).isDirectory = true := by
  simp [FileWatcher.createFileItem, h]

/-- Witness for C7 amended: the directory record for `/data/sub`. -/
theorem claim_C7_directory_record_amended_witness :
    (⟨true, 4096, 7, 3⟩ : WatchStat).isDirectory = true ∧
    ((FileWatcher.createFileItem id "/data/sub" "/data" ⟨true, 4096, 7, 3⟩).extension = "" ∧
     (FileWatcher.createFileItem id "/data/sub" "/data" ⟨true, 4096, 7, 3⟩).size =
       (⟨true, 4096, 7, 3⟩ : WatchStat).size ∧
     (FileWatcher.createFileItem id "/data/sub" "/data" ⟨true, 4096, 7, 3⟩).isDirectory =
       true) :=
  ⟨by decide, claim_C7_directory_record_amended id "/data/sub" "/data" _ (by decide)⟩

/-! ## Claim C2 -/

/-- C2: for query `"report"`, a record named `report.txt` (name starts
with the query: 80 points) scores strictly higher than one named
`quarterly_report.txt` (name merely contains the query: 60 points) when
all score-relevant fields other than the name (path, modification time,
size) agree, and `sortResults` therefore ranks it strictly first whatever
the clock value. -/
theorem claim_C2_relevance_report_first (now : ℤ) (a b : FileItem)
    (ha : a.name = "report.txt") (hb : b.name = "quarterly_report.txt")
    (hpath : a.path = b.path) (hdm : a.dateModified = b.dateModified)
    (hsz : a.size = b.size) :
    SearchService.calculateRelevanceScore now b "report" <
      SearchService.calculateRelevanceScore now a "report" ∧
    SearchService.sortResults now [b, a] "report" = [a, b] := by
  have h1 : (jsToLower "report.txt" == jsToLower "report") = false := by decide
  have h2 : jsStartsWith (jsToLower "report.txt") (jsToLower "report") = true := by decide
  have h3 : (jsToLower "quarterly_report.txt" == jsToLower "report") = false := by decide
  have h4 : jsStartsWith (jsToLower "quarterly_report.txt") (jsToLower "report") = false := by
    decide
  have h5 : jsIncludes (jsToLower "quarterly_report.txt") (jsToLower "report") = true := by
    decide
  have hscore : SearchService.calculateRelevanceScore now b "report" <
      SearchService.calculateRelevanceScore now a "report" := by
    simp only [SearchService.calculateRelevanceScore, ha, hb, hpath, hdm, hsz,
      h1, h2, h3, h4, h5, if_true, if_false, Bool.false_eq_true, Bool.true_eq_false]
    ring_nf
    linarith
  refine ⟨hscore, ?_⟩
  have hts : (jsTrim "report" == "") = false := by decide
  have hle : (decide (SearchService.calculateRelevanceScore now a "report" ≤
      SearchService.calculateRelevanceScore now b "report")) = false :=
    decide_eq_false (not_le.mpr hscore)
  simp [SearchService.sortResults, jsSortBy, jsInsertBy, hts, hle]

/-- Witness for C2: the two fixture records. -/
theorem claim_C2_relevance_report_first_witness :
    reportItem.name = "report.txt" ∧ quarterlyItem.name = "quarterly_report.txt" ∧
    (SearchService.calculateRelevanceScore 0 quarterlyItem "report" <
        SearchService.calculateRelevanceScore 0 reportItem "report" ∧
      SearchService.sortResults 0 [quarterlyItem, reportItem] "report" =
        [reportItem, quarterlyItem]) :=
  ⟨rfl, rfl,
   claim_C2_relevance_report_first 0 reportItem quarterlyItem rfl rfl rfl rfl rfl⟩

/-! ## Claim C3 -/

/-- The trim of a string is the empty string exactly when the trimmed
character list is empty. -/
theorem jsTrim_beq_empty_iff (s : String) :
    (jsTrim s == "") = true ↔ jsTrimC s.toList = [] := by
  simp [jsTrim, beq_iff_eq, String.ext_iff]

/-- C3 counterexample: the query `"a*"` contains the wildcard `*` yet
`search` takes the structured database path (observed by returning the
marker record from the store while the fuzzy index errors), because
`shouldUseFuzzySearch` additionally requires length above 3 — which the
claim omits. -/
theorem claim_C3_counterexample :
    '*' ∈ "a*".toList ∧
    SearchService.chooseStrategy "a*" = SearchService.SearchStrategy.database ∧
    SearchService.search sampleEnv markerDb failingFuzzy "a*" {} 10 0 =
      { items := [markerItem], totalCount := 1, query := "a*" } :=
  ⟨by decide, by decide, rfl⟩

/-- C3 amended: the fuzzy path is taken iff the clean query is longer
than 3 characters **and** contains a wildcard (`*`, `?`) or a character
outside `[a-zA-Z0-9\s\-_.]`; moreover the fuzzy index is built with field
weights name 0.7, path 0.2, extension 0.1. -/
theorem claim_C3_fuzzy_selection_amended :
    (∀ q : String,
      SearchService.chooseStrategy q = SearchService.SearchStrategy.fuzzy ↔
        3 < q.length ∧
          ('*' ∈ q.toList ∨ '?' ∈ q.toList ∨
            ∃ c ∈ q.toList,
              (isAlphanumJS c || isSpaceJS c || c == '-' || c == '_' || c == '.') = false)) ∧
    SearchService.fuseKeys.map SearchService.FuseKeyWeight.weight = [7/10, 2/10, 1/10] := by
  constructor
  · intro q
    have hfz : SearchService.shouldUseFuzzySearch q = true ↔
        3 < q.length ∧
          ('*' ∈ q.toList ∨ '?' ∈ q.toList ∨
            ∃ c ∈ q.toList,
              (isAlphanumJS c || isSpaceJS c || c == '-' || c == '_' || c == '.') = false) := by
      simp only [SearchService.shouldUseFuzzySearch, List.any_eq_true, List.elem_iff,
        Bool.or_eq_true, Bool.and_eq_true, decide_eq_true_iff, Bool.not_eq_true']
      tauto
    constructor
    · intro h
      unfold SearchService.chooseStrategy at h
      by_cases h1 : (jsTrim q == "") = true
      · simp [h1] at h
      · by_cases h2 : SearchService.shouldUseFuzzySearch q = true
        · exact hfz.mp h2
        · rw [if_neg (by simp [h1]), if_neg (by simp [h2])] at h
          exact absurd h (by simp)
    · intro h
      have h2 : SearchService.shouldUseFuzzySearch q = true := hfz.mpr h
      have h1 : ¬(jsTrim q == "") = true := by
        rw [jsTrim_beq_empty_iff]
        rcases h.2 with hw | hw | ⟨c, hc, hbad⟩
        · exact jsTrimC_ne_nil_of_mem hw (by decide)
        · exact jsTrimC_ne_nil_of_mem hw (by decide)
        · have hs : isSpaceJS c = false := by
            simp only [Bool.or_eq_false_iff] at hbad
            exact hbad.1.1.1.2
          exact jsTrimC_ne_nil_of_mem hc hs
      unfold SearchService.chooseStrategy
      rw [if_neg (by simp_all), if_pos h2]
  · norm_num [SearchService.fuseKeys]

/-! ## Claims C10 and C5 -/

/-- Every record of the files pass of one directory level is built by
`mkScanItem` for that directory. -/
theorem scanFilesAt_mem (uuid : String → String) (rootPath : String) :
    ∀ (currentPath : String) (l : FSList) (item : FileItem),
      item ∈ FileIndexer.scanFilesAt uuid rootPath currentPath l →
      ∃ name st, item = FileIndexer.mkScanItem uuid rootPath currentPath name st
  | _, .nil, _, h => by simp [FileIndexer.scanFilesAt] at h
  | cur, .cons (.file n st) rest, item, h => by
    simp only [FileIndexer.scanFilesAt, List.mem_append] at h
    rcases h with h | h
    · by_cases hskip : FileIndexer.skipEntryName n = true
      · simp [hskip] at h
      · simp only [hskip, Bool.false_eq_true, if_false, List.mem_singleton] at h
        exact ⟨n, st, h⟩
    · exact scanFilesAt_mem uuid rootPath cur rest item h
  | cur, .cons (.dir n cs) rest, item, h => by
    simp only [FileIndexer.scanFilesAt] at h
    exact scanFilesAt_mem uuid rootPath cur rest item h

/-- Every record of the subdirectory pass is built by `mkScanItem` for a
directory that passed the exclusion filter. -/
theorem scanSubdirs_mem (uuid : String → String) (root : String) (ex : List String) :
    ∀ (cur : String) (l : FSList) (item : FileItem),
      item ∈ FileIndexer.scanSubdirs uuid root ex cur l →
      ∃ d name st, item = FileIndexer.mkScanItem uuid root d name st ∧
        FileIndexer.shouldExcludePath d ex = false
  | _, .nil, _, h => by simp [FileIndexer.scanSubdirs] at h
  | cur, .cons (.file n st) rest, item, h => by
    simp only [FileIndexer.scanSubdirs] at h
    exact scanSubdirs_mem uuid root ex cur rest item h
  | cur, .cons (.dir n cs) rest, item, h => by
    simp only [FileIndexer.scanSubdirs, List.mem_append] at h
    rcases h with h | h
    · by_cases hskip : FileIndexer.skipEntryName n = true
      · simp [hskip] at h
      · by_cases hex : FileIndexer.shouldExcludePath (cur ++ "/" ++ n) ex = true
        · simp [hskip, hex] at h
        · simp only [hskip, hex, Bool.false_eq_true, if_false, List.mem_append] at h
          rcases h with h | h
          · obtain ⟨name, st, hitem⟩ :=
              scanFilesAt_mem uuid root (cur ++ "/" ++ n) cs item h
            exact ⟨cur ++ "/" ++ n, name, st, hitem, Bool.not_eq_true _ ▸ hex⟩
          · exact scanSubdirs_mem uuid root ex (cur ++ "/" ++ n) cs item h
    · exact scanSubdirs_mem uuid root ex cur rest item h

/-- Every scanned record is built by `mkScanItem` for a directory that
passed the exclusion filter. -/
theorem scanDirectory_mem (uuid : String → String) (root : String)
    (ex : List String) (cur : String) (children : FSList) (item : FileItem)
    (h : item ∈ FileIndexer.scanDirectory uuid root ex cur children) :
    ∃ d name st, item = FileIndexer.mkScanItem uuid root d name st ∧
      FileIndexer.shouldExcludePath d ex = false := by
  unfold FileIndexer.scanDirectory at h
  by_cases hex : FileIndexer.shouldExcludePath cur ex = true
  · simp [hex] at h
  · simp only [hex, Bool.false_eq_true, if_false, List.mem_append] at h
    rcases h with h | h
    · obtain ⟨name, st, hitem⟩ := scanFilesAt_mem uuid root cur children item h
      exact ⟨cur, name, st, hitem, Bool.not_eq_true _ ▸ hex⟩
    · exact scanSubdirs_mem uuid root ex cur children item h

/-- C10: a full scan never produces a directory record — every `FileItem`
the scanner collects has `isDirectory = false` (subdirectories are only
recursed into, never recorded). -/
theorem claim_C10_scanner_no_directory_records (uuid : String → String)
    (root : String) (ex : List String) (cur : String) (children : FSList)
    (item : FileItem)
    (h : item ∈ FileIndexer.scanDirectory uuid root ex cur children) :
    item.isDirectory = false := by
  obtain ⟨d, name, st, rfl, -⟩ := scanDirectory_mem uuid root ex cur children item h
  simp [FileIndexer.mkScanItem]

/-- Witness for C10: the record scanned from the fixture tree. -/
theorem claim_C10_scanner_no_directory_records_witness :
    sampleScanItem ∈ FileIndexer.scanDirectory id "/data" [] "/data" sampleTree ∧
    sampleScanItem.isDirectory = false :=
  ⟨by decide,
   claim_C10_scanner_no_directory_records id "/data" [] "/data" sampleTree
     sampleScanItem (by decide)⟩

/-- C5 counterexample: scanning a tree whose only entry is a *file* named
`temp` (a default exclusion token) stores the record `/data/temp`: the
exclusion filter is applied to directories only, so a stored record *can*
have a path segment equal to a configured exclusion token, although
`shouldExcludePath` itself would have rejected the path. -/
theorem claim_C5_counterexample :
    (FileIndexer.scanDirectory id "/data" [] "/data" tempTree).map FileItem.fullPath =
      ["/data/temp"] ∧
    "temp" ∈ FileIndexer.defaultExclusions ∧
    (jsSplitChar '/' (jsToLower "/data/temp")).contains "temp" = true ∧
    FileIndexer.shouldExcludePath "/data/temp" [] = true := by decide

/-- A path that passes the exclusion filter has no segment equal to any
configured token. -/
theorem shouldExcludePath_false_no_segment {d : String} {ex : List String}
    (h : FileIndexer.shouldExcludePath d ex = false) :
    ∀ tok ∈ FileIndexer.defaultExclusions ++ ex,
      (jsSplitChar '/' (jsToLower d)).contains (jsToLower tok) = false := by
  intro tok htok
  by_contra hc
  rw [Bool.not_eq_false] at hc
  have htrue : FileIndexer.shouldExcludePath d ex = true := by
    unfold FileIndexer.shouldExcludePath
    rw [if_pos (List.any_eq_true.mpr ⟨tok, htok, Bool.or_eq_true_iff.mpr (Or.inl hc)⟩)]
  rw [htrue] at h
  exact Bool.noConfusion h

/-- C5 amended: `shouldExcludePath` excludes a path iff a token matches a
segment or a substring or the depth cap is exceeded (as claimed); but the
scanner applies it to directories only, so the guarantee for stored
records is about the *containing directory*: every scanned record's full
path splits as `d ++ "/" ++ name` where `d` passed the filter and hence no
segment of `d` equals (case-insensitively) any configured token.  A file
whose own base name equals a token can still be stored
(`claim_C5_counterexample`). -/
theorem claim_C5_exclusion_amended :
    (∀ (p : String) (ex : List String),
      FileIndexer.shouldExcludePath p ex = true ↔
        (∃ tok ∈ FileIndexer.defaultExclusions ++ ex,
          (jsSplitChar '/' (jsToLower p)).contains (jsToLower tok) = true ∨
            jsIncludes (jsToLower p) (jsToLower tok) = true) ∨
        20 < (jsSplitChar '/' (jsToLower p)).length) ∧
    (∀ (uuid : String → String) (root : String) (ex : List String) (cur : String)
        (children : FSList) (item : FileItem),
      item ∈ FileIndexer.scanDirectory uuid root ex cur children →
      ∃ d name, item.fullPath = d ++ "/" ++ name ∧
        FileIndexer.shouldExcludePath d ex = false ∧
        ∀ tok ∈ FileIndexer.defaultExclusions ++ ex,
          (jsSplitChar '/' (jsToLower d)).contains (jsToLower tok) = false) := by
  constructor
  · intro p ex
    unfold FileIndexer.shouldExcludePath
    by_cases h1 : ((FileIndexer.defaultExclusions ++ ex).any fun exclusion =>
        (jsSplitChar '/' (jsToLower p)).contains (jsToLower exclusion) ||
          jsIncludes (jsToLower p) (jsToLower exclusion)) = true
    · rw [if_pos h1]
      obtain ⟨tok, htok, hcond⟩ := List.any_eq_true.mp h1
      simp only [true_iff]
      exact Or.inl ⟨tok, htok, Bool.or_eq_true_iff.mp hcond⟩
    · rw [if_neg h1]
      by_cases h2 : (decide (20 < (jsSplitChar '/' (jsToLower p)).length)) = true
      · rw [if_pos h2]
        simp only [true_iff]
        exact Or.inr (by simpa using h2)
      · rw [if_neg h2]
        simp only [Bool.false_eq_true, false_iff]
        intro hcontra
        rcases hcontra with ⟨tok, htok, hcond⟩ | hlen
        · exact h1 (List.any_eq_true.mpr ⟨tok, htok, Bool.or_eq_true_iff.mpr hcond⟩)
        · exact h2 (by simpa using hlen)
  · intro uuid root ex cur children item h
    obtain ⟨d, name, st, rfl, hdok⟩ := scanDirectory_mem uuid root ex cur children item h
    refine ⟨d, name, ?_, hdok, shouldExcludePath_false_no_segment hdok⟩
    simp [FileIndexer.mkScanItem]

/-- Witness for C5 amended: the record scanned from the fixture tree. -/
theorem claim_C5_exclusion_amended_witness :
    sampleScanItem ∈ FileIndexer.scanDirectory id "/data" [] "/data" sampleTree ∧
    (∃ d name, sampleScanItem.fullPath = d ++ "/" ++ name ∧
      FileIndexer.shouldExcludePath d [] = false ∧
      ∀ tok ∈ FileIndexer.defaultExclusions ++ [],
        (jsSplitChar '/' (jsToLower d)).contains (jsToLower tok) = false) :=
  ⟨by decide,
   claim_C5_exclusion_amended.2 id "/data" [] "/data" sampleTree sampleScanItem
     (by decide)⟩

/-! ## Claim C1 -/

/-- Sorting the results preserves their number. -/
theorem sortResults_length (now : ℤ) (files : List FileItem) (query : String) :
    (SearchService.sortResults now files query).length = files.length := by
  unfold SearchService.sortResults
  split
  · exact jsSortBy_length _ files
  · exact jsSortBy_length _ files

/-- C1 counterexample: over a store of eleven matching records, the pages
of `limit = 10` at offsets 0, 10, 20 concatenate to ten records while the
unpaginated call returns eleven — the second and later pages are empty
because the offset is applied both in the store query and in the
in-memory slice, so pagination is *not* a pure slice of one fixed result
set and the concatenation has a gap. -/
theorem claim_C1_counterexample :
    (SearchService.search sampleEnv (storeDb sampleTable) emptyFuzzy "" {} 10 0).items ++
        (SearchService.search sampleEnv (storeDb sampleTable) emptyFuzzy "" {} 10 10).items ++
        (SearchService.search sampleEnv (storeDb sampleTable) emptyFuzzy "" {} 10 20).items ≠
      (SearchService.search sampleEnv (storeDb sampleTable) emptyFuzzy "" {} 100 0).items ∧
    (SearchService.search sampleEnv (storeDb sampleTable) emptyFuzzy "" {} 10 10).items =
      [] ∧
    (SearchService.search sampleEnv (storeDb sampleTable) emptyFuzzy "" {} 10 20).items =
      [] ∧
    (SearchService.search sampleEnv (storeDb sampleTable) emptyFuzzy "" {} 10 0).items.length =
      10 ∧
    (SearchService.search sampleEnv (storeDb sampleTable) emptyFuzzy "" {} 100 0).items.length =
      11 ∧
    (SearchService.search sampleEnv (storeDb sampleTable) emptyFuzzy "" {} 10 0).totalCount =
      11 := by decide

/-- C1 amended: pagination slices a window that was *already* fetched
with `offset` and `limit * 2` from the store, so page concatenation is
complete only when every match fits into the first page: on the database
path, if the full match set has at most `limit` records, then the first
page at offset 0 agrees with any larger-limit call and the next page
(offset = limit) is empty. -/
theorem claim_C1_pagination_amended (env : JsDateEnv)
    (fuzzy : String → ℕ → Except String (List FileItem))
    (table : List Row) (query : String) (filters : SearchService.SearchFilters)
    (limit : ℕ)
    (hq : (jsTrim (SearchService.parseSearchOperators env query).2 == "") = false)
    (hf : SearchService.shouldUseFuzzySearch
      (SearchService.parseSearchOperators env query).2 = false)
    (hcount : (DatabaseService.matchesOf table
      (SearchService.parseSearchOperators env query).2).length ≤ limit) :
    (∀ L, limit ≤ L →
      (SearchService.search env (storeDb table) fuzzy query filters limit 0).items =
        (SearchService.search env (storeDb table) fuzzy query filters L 0).items) ∧
    (SearchService.search env (storeDb table) fuzzy query filters limit limit).items =
      [] := by
  rcases hP : SearchService.parseSearchOperators env query with ⟨ops, cq⟩
  rw [hP] at hq hf hcount
  simp only at hq hf hcount
  have hraw : ∀ lim off,
      SearchService.searchRaw env (storeDb table) fuzzy query filters lim off =
        Except.ok
          { items := ((SearchService.sortResults env.now
                (SearchService.applyFilters
                  (DatabaseService.searchFiles table cq (lim * 2) off)
                  (SearchService.combineFilters filters ops)) cq).drop off).take lim
            totalCount := (SearchService.sortResults env.now
              (SearchService.applyFilters
                (DatabaseService.searchFiles table cq (lim * 2) off)
                (SearchService.combineFilters filters ops)) cq).length
            query := query } := by
    intro lim off
    unfold SearchService.searchRaw
    simp only [hP]
    rw [if_neg (by simp [hq]), if_neg (by simp [hf])]
    rfl
  have hsearch : ∀ lim off,
      (SearchService.search env (storeDb table) fuzzy query filters lim off).items =
        ((SearchService.sortResults env.now
            (SearchService.applyFilters
              (DatabaseService.searchFiles table cq (lim * 2) off)
              (SearchService.combineFilters filters ops)) cq).drop off).take lim := by
    intro lim off
    unfold SearchService.search
    rw [hraw]
  have hfull : ∀ lim, limit ≤ lim →
      DatabaseService.searchFiles table cq (lim * 2) 0 =
        (DatabaseService.matchesOf table cq).map DatabaseService.rowToFileItem := by
    intro lim hlim
    unfold DatabaseService.searchFiles
    rw [List.drop_zero, List.take_of_length_le (le_trans hcount (by omega))]
  have hslen : ∀ lim, limit ≤ lim →
      (SearchService.sortResults env.now
        (SearchService.applyFilters
          ((DatabaseService.matchesOf table cq).map DatabaseService.rowToFileItem)
          (SearchService.combineFilters filters ops)) cq).length ≤ lim := by
    intro lim hlim
    rw [sortResults_length]
    calc (SearchService.applyFilters _ _).length
        ≤ ((DatabaseService.matchesOf table cq).map DatabaseService.rowToFileItem).length :=
          applyFilters_length_le _ _
      _ = (DatabaseService.matchesOf table cq).length := List.length_map _ _
      _ ≤ lim := le_trans hcount hlim
  constructor
  · intro L hL
    rw [hsearch, hsearch, hfull limit le_rfl, hfull L hL, List.drop_zero,
      List.take_of_length_le (hslen limit le_rfl),
      List.take_of_length_le (hslen L hL)]
  · have hempty : DatabaseService.searchFiles table cq (limit * 2) limit = [] := by
      unfold DatabaseService.searchFiles
      rw [List.drop_eq_nil_of_le hcount]
      simp
    rw [hsearch, hempty]
    have h1 : SearchService.applyFilters [] (SearchService.combineFilters filters ops) =
        [] := rfl
    rw [h1]
    have h2 : SearchService.sortResults env.now [] cq = [] := by
      unfold SearchService.sortResults
      split <;> rfl
    rw [h2]
    simp

/-- Witness for C1 amended: with eleven matches and `limit = 20`, the
first page agrees with a larger call and the page at offset 20 is
empty. -/
theorem claim_C1_pagination_amended_witness :
    (jsTrim (SearchService.parseSearchOperators sampleEnv "a").2 == "") = false ∧
    SearchService.shouldUseFuzzySearch
      (SearchService.parseSearchOperators sampleEnv "a").2 = false ∧
    (DatabaseService.matchesOf sampleTable
      (SearchService.parseSearchOperators sampleEnv "a").2).length ≤ 20 ∧
    ((SearchService.search sampleEnv (storeDb sampleTable) emptyFuzzy "a" {} 20 0).items =
      (SearchService.search sampleEnv (storeDb sampleTable) emptyFuzzy "a" {} 25 0).items ∧
     (SearchService.search sampleEnv (storeDb sampleTable) emptyFuzzy "a" {} 20 20).items =
      []) :=
  ⟨by decide, by decide, by decide,
   ((claim_C1_pagination_amended sampleEnv emptyFuzzy sampleTable "a" {} 20
       (by decide) (by decide) (by decide)).1 25 (by omega)),
   (claim_C1_pagination_amended sampleEnv emptyFuzzy sampleTable "a" {} 20
       (by decide) (by decide) (by decide)).2⟩

/-! ## Claim C6 — scanner lemmas -/

/-- An empty input scans to nothing, whatever the fuel. -/
theorem scanAllF_nil (m : List Char → Option (τ × ℕ)) :
    ∀ fuel, scanAllF m fuel [] = ([], [])
  | 0 => rfl
  | _ + 1 => rfl

/-- A non-matching position keeps its character in the residual. -/
theorem scanAllF_cons_none (m : List Char → Option (τ × ℕ)) {c : Char}
    {rest : List Char} (fuel : ℕ) (h : m (c :: rest) = none) :
    scanAllF m (fuel + 1) (c :: rest) =
      ((scanAllF m fuel rest).1, c :: (scanAllF m fuel rest).2) := by
  simp [scanAllF, h]

/-- A matching position consumes its token. -/
theorem scanAllF_cons_some (m : List Char → Option (τ × ℕ)) {c : Char}
    {rest : List Char} {t : τ} {n : ℕ} (fuel : ℕ) (h : m (c :: rest) = some (t, n)) :
    scanAllF m (fuel + 1) (c :: rest) =
      (t :: (scanAllF m fuel (rest.drop (n - 1))).1,
        (scanAllF m fuel (rest.drop (n - 1))).2) := by
  simp [scanAllF, h]

/-- A block on which the matcher always fails passes through the scanner
unchanged. -/
theorem scanAllF_append_headfail (m : List Char → Option (τ × ℕ)) :
    ∀ (w rest : List Char) (fuel : ℕ),
      (∀ c ∈ w, ∀ t, m (c :: t) = none) →
      scanAllF m (w.length + fuel) (w ++ rest) =
        ((scanAllF m fuel rest).1, w ++ (scanAllF m fuel rest).2)
  | [], rest, fuel, _ => by simp
  | c :: w', rest, fuel, h => by
    have hc : m (c :: (w' ++ rest)) = none := h c (by simp) _
    have hlen : (c :: w').length + fuel = (w'.length + fuel) + 1 := by
      simp [Nat.add_right_comm]
    rw [List.cons_append, hlen, scanAllF_cons_none m (w'.length + fuel) hc,
      scanAllF_append_headfail m w' rest fuel
        (fun c hc t => h c (List.mem_cons_of_mem _ hc) t)]
    simp

/-- A whole input on which the matcher always fails scans to itself. -/
theorem scanAllF_all_headfail (m : List Char → Option (τ × ℕ)) :
    ∀ (l : List Char), (∀ c ∈ l, ∀ t, m (c :: t) = none) →
      ∀ fuel, l.length ≤ fuel → scanAllF m fuel l = ([], l)
  | [], _, fuel, _ => scanAllF_nil m fuel
  | c :: l', h, fuel, hfuel => by
    cases fuel with
    | zero => simp at hfuel
    | succ f =>
      have hc : m (c :: l') = none := h c (by simp) _
      rw [scanAllF_cons_none m f hc,
        scanAllF_all_headfail m l' (fun c hc t => h c (List.mem_cons_of_mem _ hc) t) f
          (by simpa using hfuel)]

/-- A case-insensitive literal fails on a first-character mismatch. -/
theorem eatLitCI_head_ne {a c : Char} (as t : List Char) (h : a.toLower ≠ c.toLower) :
    eatLitCI (a :: as) (c :: t) = none := by
  simp [eatLitCI, beq_eq_false_iff_ne.mpr h]

/-- `matchSizeAt` fails unless the position starts with `s`/`S`. -/
theorem matchSizeAt_head {c : Char} (hc : c.toLower ≠ 's') (t : List Char) :
    SearchService.matchSizeAt (c :: t) = none := by
  unfold SearchService.matchSizeAt
  rw [show "size:".toList = 's' :: ['i', 'z', 'e', ':'] from rfl,
    eatLitCI_head_ne _ _ (by simpa using fun h => hc h.symm)]

/-- `matchExtAt` fails unless the position starts with `e`/`E`. -/
theorem matchExtAt_head {c : Char} (hc : c.toLower ≠ 'e') (t : List Char) :
    SearchService.matchExtAt (c :: t) = none := by
  unfold SearchService.matchExtAt
  rw [show "ext:".toList = 'e' :: ['x', 't', ':'] from rfl,
    eatLitCI_head_ne _ _ (by simpa using fun h => hc h.symm)]

/-- `matchDateAt` fails unless the position starts with `d`/`D`. -/
theorem matchDateAt_head {c : Char} (hc : c.toLower ≠ 'd') (t : List Char) :
    SearchService.matchDateAt (c :: t) = none := by
  unfold SearchService.matchDateAt
  rw [show "date:".toList = 'd' :: ['a', 't', 'e', ':'] from rfl,
    eatLitCI_head_ne _ _ (by simpa using fun h => hc h.symm)]

/-- `matchTypeAt` fails unless the position starts with `t`/`T`. -/
theorem matchTypeAt_head {c : Char} (hc : c.toLower ≠ 't') (t : List Char) :
    SearchService.matchTypeAt (c :: t) = none := by
  unfold SearchService.matchTypeAt
  rw [show "type:".toList = 't' :: ['y', 'p', 'e', ':'] from rfl,
    eatLitCI_head_ne _ _ (by simpa using fun h => hc h.symm)]

/-- `matchExtAt` fails at the `e` of `size:` (the next character is the
colon, not `x`). -/
theorem matchExtAt_e_colon (t : List Char) :
    SearchService.matchExtAt ('e' :: ':' :: t) = none := by
  unfold SearchService.matchExtAt
  rw [show "ext:".toList = 'e' :: 'x' :: ['t', ':'] from rfl]
  have h1 : ('e'.toLower == 'e'.toLower) = true := rfl
  have h2 : ('x'.toLower == ':'.toLower) = false := rfl
  simp [eatLitCI, h1, h2]

/-- `takeWhile` passes over a block that wholly satisfies the predicate. -/
theorem takeWhile_append_all {p : α → Bool} :
    ∀ {w r : List α}, (∀ c ∈ w, p c = true) →
      (w ++ r).takeWhile p = w ++ r.takeWhile p
  | [], _, _ => rfl
  | c :: w', r, h => by
    have hc := h c (by simp)
    simp only [List.cons_append, List.takeWhile_cons, hc, if_true]
    rw [takeWhile_append_all (fun c hc => h c (List.mem_cons_of_mem _ hc))]

/-- `dropWhile` drops a block that wholly satisfies the predicate. -/
theorem dropWhile_append_all {p : α → Bool} :
    ∀ {w r : List α}, (∀ c ∈ w, p c = true) →
      (w ++ r).dropWhile p = r.dropWhile p
  | [], _, _ => rfl
  | c :: w', r, h => by
    have hc := h c (by simp)
    simp only [List.cons_append, List.dropWhile_cons, hc, if_true]
    exact dropWhile_append_all (fun c hc => h c (List.mem_cons_of_mem _ hc))

/-- The decimal digit characters are digits, are not the head letters of
any operator pattern, are not whitespace, and are not `>`/`<`. -/
theorem digit_char_facts :
    ∀ c ∈ digitChars,
      Char.isDigit c = true ∧ c.toLower ≠ 's' ∧ c.toLower ≠ 'e' ∧ c.toLower ≠ 'd' ∧
        c.toLower ≠ 't' ∧ isSpaceJS c = false ∧ c ≠ '>' ∧ c ≠ '<' := by decide

/-- A case-insensitive literal consumes itself. -/
theorem eatLitCI_self : ∀ (l t : List Char), eatLitCI l (l ++ t) = some t
  | [], _ => rfl
  | a :: as, t => by simp [eatLitCI, eatLitCI_self as t]

theorem matchSizeAt_token (op : SizeOpJS) (ds : List Char) (u : SizeUnit)
    (hds : ds ≠ []) (hdig : ∀ c ∈ ds, c ∈ digitChars) :
    SearchService.matchSizeAt ("size:".toList ++ (opChars op ++ ds ++ unitChars u)) =
      some (⟨op, digitsToNat ds, u⟩,
        5 + (opChars op).length + ds.length + (unitChars u).length) := by
  obtain ⟨d, ds', rfl⟩ : ∃ d ds', ds = d :: ds' := by
    cases ds
    · exact absurd rfl hds
    · exact ⟨_, _, rfl⟩
  have hdigall : ∀ c ∈ d :: ds', Char.isDigit c = true := fun c hc =>
    (digit_char_facts c (hdig c hc)).1
  have hd := digit_char_facts d (hdig d (by simp))
  have htakegen : ∀ r : List Char, r.takeWhile Char.isDigit = [] →
      (d :: (ds' ++ r)).takeWhile Char.isDigit = d :: ds' := by
    intro r hr
    have h := takeWhile_append_all (w := d :: ds') (r := r) hdigall
    simp only [List.cons_append] at h
    rw [h, hr, List.append_nil]
  have hdropgen : ∀ r : List Char,
      (d :: (ds' ++ r)).dropWhile Char.isDigit = r.dropWhile Char.isDigit := by
    intro r
    have h := dropWhile_append_all (w := d :: ds') (r := r) hdigall
    simp only [List.cons_append] at h
    rw [h]
  have htake0 : (d :: ds').takeWhile Char.isDigit = d :: ds' := by
    have h := htakegen [] rfl
    simpa using h
  have hdrop0 : (d :: ds').dropWhile Char.isDigit = [] := by
    have h := hdropgen []
    simpa using h
  unfold SearchService.matchSizeAt
  rw [eatLitCI_self]
  cases op with
  | gt =>
    cases u <;>
      (simp +decide only [opChars, unitChars, List.nil_append, List.cons_append,
        List.append_nil, List.head?_cons, reduceIte, List.tail_cons]
       first
       | rw [htakegen ['k', 'b'] rfl, hdropgen ['k', 'b']]
       | rw [htakegen ['m', 'b'] rfl, hdropgen ['m', 'b']]
       | rw [htakegen ['g', 'b'] rfl, hdropgen ['g', 'b']]
       | rw [htake0, hdrop0]
       simp
       try omega)
  | lt =>
    cases u <;>
      (simp +decide only [opChars, unitChars, List.nil_append, List.cons_append,
        List.append_nil, List.head?_cons, reduceIte, List.tail_cons]
       first
       | rw [htakegen ['k', 'b'] rfl, hdropgen ['k', 'b']]
       | rw [htakegen ['m', 'b'] rfl, hdropgen ['m', 'b']]
       | rw [htakegen ['g', 'b'] rfl, hdropgen ['g', 'b']]
       | rw [htake0, hdrop0]
       simp
       try omega)
  | eqDefault =>
    have hgt : (d = '>') = False := by simp [hd.2.2.2.2.2.2.1]
    have hlt : (d = '<') = False := by simp [hd.2.2.2.2.2.2.2]
    cases u <;>
      (simp only [opChars, unitChars, List.nil_append, List.cons_append,
        List.append_nil, List.head?_cons, List.tail_cons, Option.some.injEq,
        hgt, hlt, if_false]
       first
       | rw [htakegen ['k', 'b'] rfl, hdropgen ['k', 'b']]
       | rw [htakegen ['m', 'b'] rfl, hdropgen ['m', 'b']]
       | rw [htakegen ['g', 'b'] rfl, hdropgen ['g', 'b']]
       | rw [htake0, hdrop0]
       simp
       try omega)

/-- All characters of a well-formed `word size:…` query satisfy any
predicate that holds on the word, the digits, and the fixed operator
characters. -/
theorem mem_size_query {Q : Char → Prop} (w ds : List Char) (op : SizeOpJS)
    (u : SizeUnit)
    (hw : ∀ c ∈ w, Q c) (hdigQ : ∀ c ∈ digitChars, Q c)
    (hdig : ∀ c ∈ ds, c ∈ digitChars)
    (hsp : Q ' ') (hs : Q 's') (hi : Q 'i') (hz : Q 'z') (he : Q 'e')
    (hcol : Q ':') (hgt : Q '>') (hlt : Q '<')
    (hk : Q 'k') (hm : Q 'm') (hg : Q 'g') (hb : Q 'b') :
    ∀ c ∈ w ++ ' ' :: ("size:".toList ++ (opChars op ++ ds ++ unitChars u)), Q c := by
  intro c hc
  rw [show "size:".toList = ['s', 'i', 'z', 'e', ':'] from rfl] at hc
  rcases List.mem_append.mp hc with hcw | hc
  · exact hw c hcw
  rcases List.mem_cons.mp hc with rfl | hc
  · exact hsp
  rcases List.mem_append.mp hc with h5 | hc
  · simp only [List.mem_cons, List.not_mem_nil, or_false] at h5
    rcases h5 with rfl | rfl | rfl | rfl | rfl
    · exact hs
    · exact hi
    · exact hz
    · exact he
    · exact hcol
  rcases List.mem_append.mp hc with hc | hunit
  · rcases List.mem_append.mp hc with hop | hds
    · cases op with
      | gt =>
        simp only [opChars, List.mem_singleton] at hop
        exact hop ▸ hgt
      | lt =>
        simp only [opChars, List.mem_singleton] at hop
        exact hop ▸ hlt
      | eqDefault => simp [opChars] at hop
    · exact hdigQ c (hdig c hds)
  · cases u with
    | b => simp [unitChars] at hunit
    | kb =>
      simp only [unitChars, List.mem_cons, List.not_mem_nil, or_false] at hunit
      rcases hunit with rfl | rfl
      · exact hk
      · exact hb
    | mb =>
      simp only [unitChars, List.mem_cons, List.not_mem_nil, or_false] at hunit
      rcases hunit with rfl | rfl
      · exact hm
      · exact hb
    | gb =>
      simp only [unitChars, List.mem_cons, List.not_mem_nil, or_false] at hunit
      rcases hunit with rfl | rfl
      · exact hg
      · exact hb

/-- A position whose match consumes the entire remaining input yields the
token and an empty residual. -/
theorem scanAllF_exact (m : List Char → Option (τ × ℕ)) {c : Char}
    {rest : List Char} {t : τ} {n : ℕ} (h : m (c :: rest) = some (t, n))
    (hn : n - 1 = rest.length) :
    scanAllF m (rest.length + 1) (c :: rest) = ([t], []) := by
  rw [scanAllF_cons_some m rest.length h, hn, List.drop_length, scanAllF_nil]

/-- The `size:` scanner on a `word size:…` query: exactly one token, and
the residual is the word followed by the separating space. -/
theorem scanAll_size_query (w ds : List Char) (op : SizeOpJS) (u : SizeUnit)
    (hw : ∀ c ∈ w, c.toLower ≠ 's')
    (hds : ds ≠ []) (hdig : ∀ c ∈ ds, c ∈ digitChars) :
    scanAll SearchService.matchSizeAt
        (w ++ ' ' :: ("size:".toList ++ (opChars op ++ ds ++ unitChars u))) =
      ([⟨op, digitsToNat ds, u⟩], w ++ [' ']) := by
  have hmt := matchSizeAt_token op ds u hds hdig
  have hR : "size:".toList ++ (opChars op ++ ds ++ unitChars u) =
      's' :: ('i' :: 'z' :: 'e' :: ':' :: (opChars op ++ ds ++ unitChars u)) := rfl
  rw [hR] at hmt
  have hn : (5 + (opChars op).length + ds.length + (unitChars u).length) - 1 =
      ('i' :: 'z' :: 'e' :: ':' :: (opChars op ++ ds ++ unitChars u)).length := by
    simp [List.length_append, List.length_cons]
    omega
  have hexact := scanAllF_exact SearchService.matchSizeAt hmt hn
  have hlen : (w ++ ' ' :: ("size:".toList ++ (opChars op ++ ds ++ unitChars u))).length =
      w.length +
        ((('i' :: 'z' :: 'e' :: ':' :: (opChars op ++ ds ++ unitChars u)).length + 1) + 1) := by
    simp [hR, List.length_append, List.length_cons]
  unfold scanAll
  rw [hlen, hR,
    scanAllF_append_headfail SearchService.matchSizeAt w _ _
      (fun c hc t => matchSizeAt_head (hw c hc) t),
    scanAllF_cons_none SearchService.matchSizeAt _ (matchSizeAt_head (by decide) _),
    hexact]

/-- Whole-input form of `scanAllF_all_headfail`. -/
theorem scanAll_of_headfail (m : List Char → Option (τ × ℕ)) (l : List Char)
    (h : ∀ c ∈ l, ∀ t, m (c :: t) = none) : scanAll m l = ([], l) :=
  scanAllF_all_headfail m l h l.length le_rfl

/-- Membership in the operator-digits-unit tail of a `size:` pattern. -/
theorem mem_opdsu {Q : Char → Prop} (ds : List Char) (op : SizeOpJS) (u : SizeUnit)
    (hdigQ : ∀ c ∈ digitChars, Q c) (hdig : ∀ c ∈ ds, c ∈ digitChars)
    (hgt : Q '>') (hlt : Q '<')
    (hk : Q 'k') (hm : Q 'm') (hg : Q 'g') (hb : Q 'b') :
    ∀ c ∈ opChars op ++ ds ++ unitChars u, Q c := by
  intro c hc
  rcases List.mem_append.mp hc with hc | hunit
  · rcases List.mem_append.mp hc with hop | hds
    · cases op with
      | gt =>
        simp only [opChars, List.mem_singleton] at hop
        exact hop ▸ hgt
      | lt =>
        simp only [opChars, List.mem_singleton] at hop
        exact hop ▸ hlt
      | eqDefault => simp [opChars] at hop
    · exact hdigQ c (hdig c hds)
  · cases u with
    | b => simp [unitChars] at hunit
    | kb =>
      simp only [unitChars, List.mem_cons, List.not_mem_nil, or_false] at hunit
      rcases hunit with rfl | rfl
      · exact hk
      · exact hb
    | mb =>
      simp only [unitChars, List.mem_cons, List.not_mem_nil, or_false] at hunit
      rcases hunit with rfl | rfl
      · exact hm
      · exact hb
    | gb =>
      simp only [unitChars, List.mem_cons, List.not_mem_nil, or_false] at hunit
      rcases hunit with rfl | rfl
      · exact hg
      · exact hb

/-- The `ext:` scanner finds no match in a `word size:…` query: the only
`e` position is the `e` of `size:`, where the next character is the colon. -/
theorem scanAll_ext_query (w ds : List Char) (op : SizeOpJS) (u : SizeUnit)
    (hw : ∀ c ∈ w, c.toLower ≠ 'e') (hdig : ∀ c ∈ ds, c ∈ digitChars) :
    scanAll SearchService.matchExtAt
        (w ++ ' ' :: ("size:".toList ++ (opChars op ++ ds ++ unitChars u))) =
      ([], w ++ ' ' :: ("size:".toList ++ (opChars op ++ ds ++ unitChars u))) := by
  have hTfail : ∀ c ∈ opChars op ++ ds ++ unitChars u, ∀ t,
      SearchService.matchExtAt (c :: t) = none := by
    have hQ := mem_opdsu (Q := fun c => c.toLower ≠ 'e') ds op u
      (fun c hc => (digit_char_facts c hc).2.2.1) hdig
      (by decide) (by decide) (by decide) (by decide) (by decide) (by decide)
    exact fun c hc t => matchExtAt_head (hQ c hc) t
  have htail := scanAllF_all_headfail SearchService.matchExtAt
    (opChars op ++ ds ++ unitChars u) hTfail
    (opChars op ++ ds ++ unitChars u).length le_rfl
  have hR : "size:".toList ++ (opChars op ++ ds ++ unitChars u) =
      's' :: 'i' :: 'z' :: 'e' :: ':' :: (opChars op ++ ds ++ unitChars u) := rfl
  have hlen : (w ++ ' ' :: ("size:".toList ++ (opChars op ++ ds ++ unitChars u))).length =
      w.length +
        ((opChars op ++ ds ++ unitChars u).length + 1 + 1 + 1 + 1 + 1 + 1) := by
    simp [List.length_append]
  unfold scanAll
  rw [hlen, hR,
    scanAllF_append_headfail SearchService.matchExtAt w _ _
      (fun c hc t => matchExtAt_head (hw c hc) t),
    scanAllF_cons_none SearchService.matchExtAt
      ((opChars op ++ ds ++ unitChars u).length + 1 + 1 + 1 + 1 + 1)
      (matchExtAt_head (by decide) _),
    scanAllF_cons_none SearchService.matchExtAt
      ((opChars op ++ ds ++ unitChars u).length + 1 + 1 + 1 + 1)
      (matchExtAt_head (by decide) _),
    scanAllF_cons_none SearchService.matchExtAt
      ((opChars op ++ ds ++ unitChars u).length + 1 + 1 + 1)
      (matchExtAt_head (by decide) _),
    scanAllF_cons_none SearchService.matchExtAt
      ((opChars op ++ ds ++ unitChars u).length + 1 + 1)
      (matchExtAt_head (by decide) _),
    scanAllF_cons_none SearchService.matchExtAt
      ((opChars op ++ ds ++ unitChars u).length + 1)
      (matchExtAt_e_colon (opChars op ++ ds ++ unitChars u)),
    scanAllF_cons_none SearchService.matchExtAt
      ((opChars op ++ ds ++ unitChars u).length)
      (matchExtAt_head (by decide) _),
    htail]

/-- Trimming a non-whitespace word followed by one space gives back the
word. -/
theorem jsTrimC_append_space :
    ∀ (w : List Char), (∀ c ∈ w, isSpaceJS c = false) → jsTrimC (w ++ [' ']) = w
  | [], _ => rfl
  | c :: w', hw => by
    unfold jsTrimC
    have hc : isSpaceJS c = false := hw c (by simp)
    have hdrop1 : ((c :: w') ++ [' ']).dropWhile isSpaceJS = (c :: w') ++ [' '] := by
      rw [List.cons_append, List.dropWhile_cons, hc]
      simp
    have hrevall : ∀ x ∈ (c :: w').reverse, isSpaceJS x = false := by
      intro x hx
      exact hw x (List.mem_reverse.mp hx)
    have hdrop2 : (' ' :: (c :: w').reverse).dropWhile isSpaceJS = (c :: w').reverse := by
      rw [List.dropWhile_cons, show isSpaceJS ' ' = true from rfl]
      simpa using dropWhile_all_false hrevall
    rw [hdrop1, List.reverse_append,
      show ([' '] : List Char).reverse ++ (c :: w').reverse =
        ' ' :: (c :: w').reverse from rfl,
      hdrop2, List.reverse_reverse]

/-- A token starting with a character absent from the haystack does not
occur in it. -/
theorem containsTok_head_notin (tok : List Char) :
    ∀ (hay : List Char) (c : Char), (∀ x ∈ hay, x ≠ c) →
      containsTok hay (c :: tok) = false
  | [], _, _ => rfl
  | a :: rest, c, h => by
    have ha : (c == a) = false :=
      beq_eq_false_iff_ne.mpr fun e => (h a (by simp)) e.symm
    simp [containsTok, leadEq, ha,
      containsTok_head_notin tok rest c (fun x hx => h x (List.mem_cons_of_mem _ hx))]

/-- C6: parsing a query `word size:OPVALUNIT` (a word of ordinary
characters, a space, then the `size:` operator with optional `>`/`<`,
digits, and optional unit) yields: unit multipliers KB = 1024,
MB = 1024², GB = 1024³; for `>` only `sizeMin` = value·multiplier, for
`<` only `sizeMax`, and for a bare value the ±10 % band
(0.9·bytes, 1.1·bytes); no other operator field is set; the matched
`size:` substring is stripped so that the clean text is exactly the
remaining word — it no longer contains `size:` — while the unrecognized
word itself stays in the clean text. -/
theorem claim_C6_size_operator_parsing (env : JsDateEnv) (w ds : List Char)
    (op : SizeOpJS) (u : SizeUnit)
    (hw : ∀ c ∈ w,
      (c.toLower ≠ 's' ∧ c.toLower ≠ 'e' ∧ c.toLower ≠ 'd' ∧ c.toLower ≠ 't') ∧
        isSpaceJS c = false)
    (hds : ds ≠ []) (hdig : ∀ c ∈ ds, c ∈ digitChars) :
    SearchService.unitMult .kb = 1024 ∧
    SearchService.unitMult .mb = 1024 * 1024 ∧
    SearchService.unitMult .gb = 1024 * 1024 * 1024 ∧
    SearchService.parseSearchOperators env
        (String.mk (w ++ ' ' :: ("size:".toList ++ (opChars op ++ ds ++ unitChars u)))) =
      ({ extensions := none
         sizeMin :=
           (match op with
            | .gt => some ((digitsToNat ds : ℚ) * SearchService.unitMult u)
            | .lt => none
            | .eqDefault =>
              some ((digitsToNat ds : ℚ) * SearchService.unitMult u * (0.9 : ℚ)))
         sizeMax :=
           (match op with
            | .gt => none
            | .lt => some ((digitsToNat ds : ℚ) * SearchService.unitMult u)
            | .eqDefault =>
              some ((digitsToNat ds : ℚ) * SearchService.unitMult u * (1.1 : ℚ)))
         dateModifiedFrom := none
         dateModifiedTo := none
         fileTypes := none }, String.mk w) ∧
    jsIncludes (String.mk w) "size:" = false := by
  refine ⟨rfl, rfl, rfl, ?_, ?_⟩
  · have hext := scanAll_ext_query w ds op u (fun c hc => (hw c hc).1.2.1) hdig
    have hsize := scanAll_size_query w ds op u (fun c hc => (hw c hc).1.1) hds hdig
    have hdate : scanAll SearchService.matchDateAt
        (w ++ ' ' :: ("size:".toList ++ (opChars op ++ ds ++ unitChars u))) =
        ([], w ++ ' ' :: ("size:".toList ++ (opChars op ++ ds ++ unitChars u))) := by
      have hQ := mem_size_query (Q := fun c => c.toLower ≠ 'd') w ds op u
        (fun c hc => (hw c hc).1.2.2.1) (fun c hc => (digit_char_facts c hc).2.2.2.1)
        hdig (by decide) (by decide) (by decide) (by decide) (by decide) (by decide)
        (by decide) (by decide) (by decide) (by decide) (by decide) (by decide)
      exact scanAll_of_headfail _ _ (fun c hc t => matchDateAt_head (hQ c hc) t)
    have htype : scanAll SearchService.matchTypeAt
        (w ++ ' ' :: ("size:".toList ++ (opChars op ++ ds ++ unitChars u))) =
        ([], w ++ ' ' :: ("size:".toList ++ (opChars op ++ ds ++ unitChars u))) := by
      have hQ := mem_size_query (Q := fun c => c.toLower ≠ 't') w ds op u
        (fun c hc => (hw c hc).1.2.2.2) (fun c hc => (digit_char_facts c hc).2.2.2.2.1)
        hdig (by decide) (by decide) (by decide) (by decide) (by decide) (by decide)
        (by decide) (by decide) (by decide) (by decide) (by decide) (by decide)
      exact scanAll_of_headfail _ _ (fun c hc t => matchTypeAt_head (hQ c hc) t)
    have htrim := jsTrimC_append_space w (fun c hc => (hw c hc).2)
    have hqc : (String.mk (w ++ ' ' ::
        ("size:".toList ++ (opChars op ++ ds ++ unitChars u)))).toList =
        w ++ ' ' :: ("size:".toList ++ (opChars op ++ ds ++ unitChars u)) := rfl
    simp only [SearchService.parseSearchOperators, hqc, hext, hsize, hdate, htype]
    simp only [List.isEmpty_nil, List.isEmpty_cons, if_true, if_false, Bool.false_eq_true,
      List.head?_nil, List.foldl_cons, List.foldl_nil, htrim]
    have hsize2 := hsize
    rw [show ("size:".toList : List Char) = ['s', 'i', 'z', 'e', ':'] from rfl] at hsize2
    simp only [List.cons_append, List.append_assoc, List.nil_append] at hsize2
    cases op <;>
      simp [SearchService.applySizeTok, hsize2, htrim]
  · have hns : ∀ x ∈ w, x ≠ 's' := by
      intro x hx e
      exact (hw x hx).1.1 (by rw [e]; decide)
    have h1 : (String.mk w).toList = w := rfl
    have h2 : ("size:" : String).toList = 's' :: ['i', 'z', 'e', ':'] := rfl
    unfold jsIncludes
    rw [h1, h2]
    exact containsTok_head_notin _ w 's' hns

/-- Witness for C6: the query `plan size:>100mb`. -/
theorem claim_C6_size_operator_parsing_witness :
    (∀ c ∈ (['p', 'l', 'a', 'n'] : List Char),
      (c.toLower ≠ 's' ∧ c.toLower ≠ 'e' ∧ c.toLower ≠ 'd' ∧ c.toLower ≠ 't') ∧
        isSpaceJS c = false) ∧
    (['1', '0', '0'] : List Char) ≠ [] ∧
    (∀ c ∈ (['1', '0', '0'] : List Char), c ∈ digitChars) ∧
    (SearchService.unitMult .kb = 1024 ∧
     SearchService.unitMult .mb = 1024 * 1024 ∧
     SearchService.unitMult .gb = 1024 * 1024 * 1024 ∧
     SearchService.parseSearchOperators sampleEnv
         (String.mk (['p', 'l', 'a', 'n'] ++ ' ' ::
           ("size:".toList ++ (opChars .gt ++ ['1', '0', '0'] ++ unitChars .mb)))) =
       ({ extensions := none
          sizeMin := some ((digitsToNat ['1', '0', '0'] : ℚ) * SearchService.unitMult .mb)
          sizeMax := none
          dateModifiedFrom := none
          dateModifiedTo := none
          fileTypes := none }, String.mk ['p', 'l', 'a', 'n']) ∧
     jsIncludes (String.mk ['p', 'l', 'a', 'n']) "size:" = false) :=
  ⟨by decide, by decide, by decide,
   claim_C6_size_operator_parsing sampleEnv ['p', 'l', 'a', 'n'] ['1', '0', '0'] .gt .mb
     (by decide) (by decide) (by decide)⟩
